import Mathlib

/-!
Verification model of the movie-notifier-bot notification pipeline.

The Rust source is embedded shallowly:

* byte/text content is modelled as `List Char` (the sources only ever treat
  ledger files as UTF-8 text; `String::from_utf8` failures are therefore not
  representable and the `Utf8` error constructor is never produced);
* `u64` is modelled as `Nat` together with an explicit `< 2 ^ 64` bound at the
  points where Rust's `u64::from_str` enforces it;
* `BTreeSet<u64>` is modelled as a strictly sorted `List Nat`; the sortedness
  invariant is carried as an explicit hypothesis where a proof needs it;
* `chrono::NaiveDate` and `std::time::SystemTime` are modelled as abstract
  ordinals (`Nat`): the code under verification only ever compares them,
  subtracts them, and formats them for display, so the embedding keeps a
  formatting function `toDecChars` as the image of `Display`;
* network effects are modelled by explicit traces: a function from the attempt
  index to the outcome the remote side produced for that attempt.
-/

namespace MovieBot

/-! ## Characters, decimal parsing and rendering (`u64::from_str`, `to_string`) -/

/-- Digit value of an ASCII digit character. -/
def digitVal (c : Char) : Nat := c.toNat - 48

/-- The ASCII digit character for a digit value `d < 10`. -/
def digitChar (d : Nat) : Char := Char.ofNat (48 + d)

/-- Accumulating decimal scan: consumes the whole list, failing on the first
non-digit.  Mirrors the digit loop inside Rust's `u64::from_str`. -/
def parseDigitsAux : Nat → List Char → Option Nat
  | acc, [] => some acc
  | acc, c :: cs =>
    if c.isDigit then parseDigitsAux (10 * acc + digitVal c) cs else none

/-- Embedding of `u64::from_str`: an optional leading `'+'`, then one or more
ASCII digits, and the value must fit in 64 bits (overflow is a `ParseIntError`,
hence `none` here). -/
def parseU64 (s : List Char) : Option Nat :=
  let t := match s with
    | c :: rest => if c = '+' then rest else s
    | [] => s
  if t.isEmpty then none
  else
    match parseDigitsAux 0 t with
    | some v => if v < 2 ^ 64 then some v else none
    | none => none

/-- Digit extraction for `toDecChars`, structurally recursive on a fuel
bound (`n` itself suffices) so that concrete renderings evaluate inside the
kernel. -/
def toDecCharsAux : Nat → Nat → List Char
  | 0, _ => []
  | fuel + 1, n =>
    if n = 0 then []
    else toDecCharsAux fuel (n / 10) ++ [digitChar (n % 10)]

/-- Embedding of `u64::to_string` (and of the `Display` of the abstract date
ordinals): standard decimal rendering. -/
def toDecChars (n : Nat) : List Char :=
  if n = 0 then ['0'] else toDecCharsAux n n

/-- The `char::is_whitespace` predicate of Rust, restricted to the
`White_Space` code points that can actually occur around decimal ids in a
ledger file (full Unicode data is irrelevant to every claim: digits are never
whitespace under either reading). -/
def isRustWhitespace (c : Char) : Bool :=
  c = ' ' || c = '\t' || c = '\n' || c = '\r' ||
    c.toNat = 11 || c.toNat = 12 || c.toNat = 133 || c.toNat = 160

/-- Embedding of `str::trim`. -/
def trim (s : List Char) : List Char :=
  ((s.dropWhile isRustWhitespace).reverse.dropWhile isRustWhitespace).reverse

/-- Splitting a character list at every occurrence of `sep`; the underlying
operation of `str::lines`. -/
def splitOnChar (sep : Char) : List Char → List (List Char)
  | [] => [[]]
  | x :: xs =>
    if x = sep then [] :: splitOnChar sep xs
    else
      match splitOnChar sep xs with
      | t :: ts => (x :: t) :: ts
      | [] => [[x]]

/-- Drops one trailing `'\r'`, as `str::lines` does for `\r\n` endings. -/
def stripCR (l : List Char) : List Char :=
  if l.getLast? = some '\r' then l.dropLast else l

/-- Embedding of `str::lines`: split on `'\n'`, drop the empty piece produced
by a final line terminator, strip a trailing `'\r'` from each line. -/
def rustLines (s : List Char) : List (List Char) :=
  let parts := splitOnChar '\n' s
  let parts := if parts.getLast? = some ([] : List Char) then parts.dropLast else parts
  parts.map stripCR

/-- Joining lines with `'\n'`, the image of `Vec::join("\n")`. -/
def joinLines : List (List Char) → List Char
  | [] => []
  | [t] => t
  | t :: ts => t ++ '\n' :: joinLines ts

/-! ## The deduplication ledger (`state/mod.rs`, `SentHistory`) -/

namespace SentHistory

/-- `BTreeSet::insert` on the sorted-list representation. -/
def btInsert (x : Nat) : List Nat → List Nat
  | [] => [x]
  | y :: ys =>
    if x < y then x :: y :: ys
    else if x = y then y :: ys
    else y :: btInsert x ys

/-- Embedding of `SentHistory::append`: inserts every id of the input slice in
order, counting how many were actually new (the `insert` return value). -/
def append : List Nat → List Nat → List Nat × Nat
  | [], s => (s, 0)
  | x :: xs, s =>
    let isNew : Nat := if x ∈ s then 0 else 1
    let r := append xs (btInsert x s)
    (r.1, isNew + r.2)

/-- The line-consuming loop of `SentHistory::apply_raw`: trim each line, skip
empty lines, parse the rest as `u64` into a fresh `BTreeSet`; the first
unparsable line aborts the whole parse, returning the offending trimmed text
(the `value` carried by `StateError::InvalidId`). -/
def parseLines : List (List Char) → List Nat → Except (List Char) (List Nat)
  | [], acc => .ok acc
  | l :: ls, acc =>
    let t := trim l
    if t.isEmpty then parseLines ls acc
    else
      match parseU64 t with
      | some id => parseLines ls (btInsert id acc)
      | none => .error t

/-- Embedding of `SentHistory::apply_raw`: empty content clears the set;
otherwise the parsed set replaces the old one only if every line parses.
On error the caller's in-memory set is untouched (the assignment
`self.ids = parsed` in the source happens after the loop). -/
def applyRaw (data : List Char) : Except (List Char) (List Nat) :=
  if data.isEmpty then .ok []
  else parseLines (rustLines data) []

/-- Embedding of `SentHistory::render_file`: the ids in ascending order (the
`BTreeSet` iteration order), rendered in decimal, joined by `'\n'`. -/
def renderFile (ids : List Nat) : List Char :=
  joinLines (ids.map toDecChars)

/-- Errors of `state/mod.rs` that the model can produce.  `artifact` stands
for a failed `download_artifact` call, `invalidId` carries the unparsable
trimmed line exactly as `StateError::InvalidId { value, .. }` does. -/
inductive StateError
  | artifact
  | invalidId (value : List Char)
  deriving Repr, DecidableEq

/-- Embedding of `SentHistory::restore`.  `download` is the outcome of
`ArtifactStore::download_artifact` (an error, a missing artifact, or the
artifact bytes), `localFile` the content of the local cache file if it
exists.  Returns the new in-memory set together with the `Result`; on any
error the set is the unchanged `ids` (the source returns early via `?`
without assigning `self.ids`).  The `save_raw` of downloaded bytes only
touches the local file and is reported by the second component of the
orchestration model below. -/
def restore (ids : List Nat) (download : Except Unit (Option (List Char)))
    (localFile : Option (List Char)) :
    List Nat × Except StateError Unit :=
  match download with
  | .error _ => (ids, .error .artifact)
  | .ok (some bytes) =>
    match applyRaw bytes with
    | .ok parsed => (parsed, .ok ())
    | .error v => (ids, .error (.invalidId v))
  | .ok none =>
    match localFile with
    | some bytes =>
      match applyRaw bytes with
      | .ok parsed => (parsed, .ok ())
      | .error v => (ids, .error (.invalidId v))
    | none => (ids, .ok ())

end SentHistory

/-! ## The catalog fetcher (`tmdb/mod.rs`) -/

namespace Tmdb

/-- `PRIORITY_DIGITAL_REGIONS` from `tmdb/mod.rs`. -/
def PRIORITY_DIGITAL_REGIONS : List (List Char) :=
  ["RU", "US", "GB", "DE", "FR", "IT", "ES", "NL"].map String.toList

/-- `RELEVANT_PRODUCTION_COUNTRIES` from `tmdb/mod.rs`. -/
def RELEVANT_PRODUCTION_COUNTRIES : List (List Char) :=
  ["US", "GB", "CA", "AU", "FR", "DE", "IT", "ES", "JP", "KR", "RU", "NL",
    "SE", "NO", "DK", "FI", "BE", "IE", "CH", "PL", "CZ", "AT",
    "HU"].map String.toList

/-- `EXCLUDED_GENRES` from `tmdb/mod.rs`. -/
def EXCLUDED_GENRES : List (List Char) :=
  ["Documentary", "TV Movie", "Music", "Reality"].map String.toList

/-- `RETRY_DELAYS` from `tmdb/mod.rs`, in seconds: 5, 15 and 30 minutes. -/
def RETRY_DELAYS : List Nat := [5 * 60, 15 * 60, 30 * 60]

/-- `MAX_DISCOVER_PAGES`. -/
def MAX_DISCOVER_PAGES : Nat := 5

/-- `total_pages.clamp(1, MAX_DISCOVER_PAGES)`. -/
def limitTotalPages (totalPages : Nat) : Nat :=
  max 1 (min totalPages MAX_DISCOVER_PAGES)

/-- One entry of the per-region release dates payload.  The raw payload
carries the date as a string; the embedding keeps it as `Option Nat`:
`none` is the empty string (skipped by the source), `some d` a string that
parses to the abstract date ordinal `d` (`chrono` date-string parsing is
outside the model, so a payload whose dates parse is assumed). -/
structure ReleaseDateEntry where
  release_date : Option Nat
  release_type : Nat
  deriving Repr, DecidableEq

/-- One region of the release dates payload (`iso_3166_1` plus its dates). -/
structure ReleaseDatesRegion where
  region : List Char
  release_dates : List ReleaseDateEntry
  deriving Repr, DecidableEq

/-- Association-list update with `HashMap::insert` semantics: replaces the
value of an existing key, otherwise appends the binding. -/
def mapInsert (k : List Char) (v : List Nat) :
    List (List Char × List Nat) → List (List Char × List Nat)
  | [] => [(k, v)]
  | (k', v') :: rest =>
    if k' = k then (k, v) :: rest else (k', v') :: mapInsert k v rest

/-- Association-list lookup, `HashMap::get`. -/
def mapGet (k : List Char) : List (List Char × List Nat) → Option (List Nat)
  | [] => none
  | (k', v') :: rest => if k' = k then some v' else mapGet k rest

/-- The region-collection loop of `select_digital_release_date`: for each
region keep the parsed dates of its type-4 (digital) entries with non-empty
date strings, and record the region only when that list is non-empty. -/
def collectByRegion (results : List ReleaseDatesRegion) :
    List (List Char × List Nat) :=
  results.foldl
    (fun m region =>
      let dates := region.release_dates.filterMap
        (fun e => if e.release_type = 4 then e.release_date else none)
      if dates.isEmpty then m else mapInsert region.region dates m)
    []

/-- The priority scan of `select_digital_release_date`: the dates of the
first region of `PRIORITY_DIGITAL_REGIONS` present in the map. -/
def firstPriorityRegion (m : List (List Char × List Nat)) : Option (List Nat) :=
  PRIORITY_DIGITAL_REGIONS.findSome? (fun r => mapGet r m)

/-- Embedding of `select_preferred_date`: one pass computing the minimum of
the dates not after `today` (`past_min`) and the minimum of all dates
(`all_min`), returning `past_min.or(all_min)`. -/
def selectPreferredDate (dates : List Nat) (today : Nat) : Option Nat :=
  let r := dates.foldl
    (fun (acc : Option Nat × Option Nat) date =>
      let allMin := some (acc.2.elim date (fun current => min current date))
      let pastMin :=
        if date ≤ today then some (acc.1.elim date (fun current => min current date))
        else acc.1
      (pastMin, allMin))
    (none, none)
  r.1.or r.2

/-- Embedding of `select_digital_release_date` (`today` stands for
`Utc::now().date_naive()`, made explicit): group type-4 dates by region,
take the dates of the first priority region if any, otherwise all regions'
dates flattened, and run `select_preferred_date` on them. -/
def selectDigitalReleaseDate (results : List ReleaseDatesRegion)
    (today : Nat) : Option Nat :=
  let m := collectByRegion results
  match firstPriorityRegion m with
  | some dates => selectPreferredDate dates today
  | none => selectPreferredDate (m.map Prod.snd).flatten today

/-- `MovieDetails` as used by `is_relevant_release` and the enrichment step.
`f64` fields are carried as `Rat`: they are stored and never inspected. -/
structure MovieDetails where
  homepage : Option (List Char)
  watch_providers : List (List Char)
  production_countries : List (List Char)
  vote_average : Rat
  vote_count : Nat
  genres : List (List Char)
  runtime : Option Nat
  deriving Repr, DecidableEq

/-- Embedding of `is_relevant_release`: at least one allow-listed production
country, no deny-listed genre, and a known runtime of at least 60 minutes. -/
def isRelevantRelease (details : MovieDetails) : Bool :=
  let hasRelevantCountry :=
    details.production_countries.any (fun c => RELEVANT_PRODUCTION_COUNTRIES.contains c)
  let hasExcludedGenre :=
    details.genres.any (fun g => EXCLUDED_GENRES.contains g)
  let hasRequiredRuntime := (details.runtime.map (fun minutes => decide (60 ≤ minutes))).getD false
  hasRelevantCountry && !hasExcludedGenre && hasRequiredRuntime

/-- A discover-page stub item (`DiscoverMovie`).  `release_date` is `none`
for the empty string (the serde default) and `some d` for a date string
parsing to the ordinal `d`. -/
structure DiscoverMovie where
  id : Nat
  title : List Char
  release_date : Option Nat
  original_language : List Char
  popularity : Rat
  deriving Repr, DecidableEq

/-- A fully enriched release (`MovieRelease`). -/
structure MovieRelease where
  id : Nat
  title : List Char
  release_date : Nat
  digital_release_date : Nat
  original_language : List Char
  popularity : Rat
  homepage : Option (List Char)
  watch_providers : List (List Char)
  deriving Repr, DecidableEq

/-- The per-stub body of the enrichment loop in `fetch_digital_releases`
(lines 154–187): skip items already in the client's history, skip items with
an empty primary date, fall back to the primary date when the release-dates
lookup (`digitalLookup`, the value of `fetch_digital_release_date`) yields no
digital date, and drop items failing `is_relevant_release`. -/
def processMovie (history : List Nat) (movie : DiscoverMovie)
    (details : MovieDetails) (digitalLookup : Option Nat) :
    Option MovieRelease :=
  if movie.id ∈ history then none
  else
    match movie.release_date with
    | none => none
    | some releaseDate =>
      let digitalReleaseDate := digitalLookup.getD releaseDate
      if !isRelevantRelease details then none
      else
        some
          { id := movie.id
            title := movie.title
            release_date := releaseDate
            digital_release_date := digitalReleaseDate
            original_language := movie.original_language
            popularity := movie.popularity
            homepage := details.homepage
            watch_providers := details.watch_providers }

/-- Outcome of one attempt of a TMDB network call: a response with a status
code, or a `reqwest` transport error optionally carrying a status. -/
inductive HttpOutcome
  | resp (status : Nat)
  | err (status : Option Nat)
  deriving Repr, DecidableEq

/-- `StatusCode::is_server_error`: the 5xx class. -/
def is5xx (s : Nat) : Bool := 500 ≤ s && s ≤ 599

/-- `StatusCode::is_success`: the 2xx class. -/
def isSuccess2xx (s : Nat) : Bool := 200 ≤ s && s ≤ 299

/-- The condition under which `execute_with_retry` retries an attempt: a
response whose status is 5xx, or a transport error carrying a 5xx status. -/
def isServerError5xx : HttpOutcome → Bool
  | .resp s => is5xx s
  | .err os => (os.map is5xx).getD false

/-- Errors of `tmdb/mod.rs` reachable in the model. -/
inductive TmdbError
  | invalidWindow
  | http (status : Option Nat)
  | unexpectedStatus (status : Nat)
  | retryLimitExceeded
  deriving Repr, DecidableEq

/-- The value of a non-retried attempt: a response is handed back as its
status (the `Ok(resp)` arm of the source), a non-5xx transport error becomes
`TmdbError::Http` (the final `Err(err)` arm). -/
def attemptValue : HttpOutcome → Except TmdbError Nat
  | .resp s => .ok s
  | .err os => .error (.http os)

/-- The loop of `execute_with_retry` over the not-yet-consumed retry delays.
`trace i` is the outcome of the `i`-th transport attempt; the result carries
the `Ok` status (or error), the total number of transport calls made, and
the sleeps performed, in order.  A 5xx-class outcome consumes the next delay
and retries, or breaks out with `RetryLimitExceeded` when the schedule is
exhausted; any other outcome ends the loop at once. -/
def executeWithRetryGo (trace : Nat → HttpOutcome) :
    List Nat → Nat → Except TmdbError Nat × Nat × List Nat
  | [], i =>
    if isServerError5xx (trace i) then (.error .retryLimitExceeded, 1, [])
    else (attemptValue (trace i), 1, [])
  | d :: rest, i =>
    if isServerError5xx (trace i) then
      let r := executeWithRetryGo trace rest (i + 1)
      (r.1, r.2.1 + 1, d :: r.2.2)
    else (attemptValue (trace i), 1, [])

/-- Embedding of `execute_with_retry`: start with the full `RETRY_DELAYS`
schedule. -/
def executeWithRetry (trace : Nat → HttpOutcome) :
    Except TmdbError Nat × Nat × List Nat :=
  executeWithRetryGo trace RETRY_DELAYS 0

/-- Embedding of `fetch_json` at the status level (the JSON decoding of a
successful body is outside the model): a non-2xx status of the final
response becomes `UnexpectedStatus` with no further attempt. -/
def fetchJson (trace : Nat → HttpOutcome) :
    Except TmdbError Nat × Nat × List Nat :=
  let r := executeWithRetry trace
  match r.1 with
  | .ok s => (if isSuccess2xx s then .ok s else .error (.unexpectedStatus s), r.2)
  | .error e => (.error e, r.2)

end Tmdb

/-! ## The channel dispatcher (`telegram/mod.rs`) -/

namespace Telegram

/-- `DEFAULT_MAX_RETRIES`. -/
def DEFAULT_MAX_RETRIES : Nat := 3

/-- `DEFAULT_RETRY_DELAYS`, in seconds. -/
def DEFAULT_RETRY_DELAYS : List Nat := [5, 15, 30]

/-- A transport response (`TelegramTransportResponse`).  The body is kept at
the granularity the dispatcher inspects it: `retryAfter` is the parsed
`parameters.retry_after` field of the body when present (`parse_retry_after`),
`none` when parsing yields nothing. -/
structure TgResp where
  status : Nat
  retryAfter : Option Nat
  deriving Repr, DecidableEq

/-- Errors of `telegram/mod.rs` reachable in the model (transport errors of
`reqwest` are not modelled: every attempt yields a status). -/
inductive TelegramError
  | unknownChat (chatId : Int)
  | api (status : Nat) (retryAfter : Option Nat)
  deriving Repr, DecidableEq

/-- Embedding of `TelegramDispatcher::retry_delay_for`: the schedule entry at
`attempt`, clamped to the last entry past the end, `1` second for an empty
schedule. -/
def retryDelayFor (retryDelays : List Nat) (attempt : Nat) : Nat :=
  ((retryDelays.get? attempt).or retryDelays.getLast?).getD 1

/-- The retry loop of `send_single`.  `trace k` is the response of the `k`-th
transport call overall; `base` is the index of this message's first call and
`retries` the current retry counter, so the pending call has index
`base + retries`.  Returns the result, the number of transport calls made for
this message, and the sleeps performed in order. -/
def sendSingleGo (retryDelays : List Nat) (maxRetries : Nat)
    (trace : Nat → TgResp) (base : Nat) (retries : Nat) :
    Except TelegramError Unit × Nat × List Nat :=
  let r := trace (base + retries)
  if Tmdb.isSuccess2xx r.status then (.ok (), 1, [])
  else if r.status = 429 && retries < maxRetries then
    let delay := r.retryAfter.getD 1
    let rec' := sendSingleGo retryDelays maxRetries trace base (retries + 1)
    (rec'.1, rec'.2.1 + 1, delay :: rec'.2.2)
  else if Tmdb.is5xx r.status && retries < maxRetries then
    let delay := retryDelayFor retryDelays retries
    let rec' := sendSingleGo retryDelays maxRetries trace base (retries + 1)
    (rec'.1, rec'.2.1 + 1, delay :: rec'.2.2)
  else (.error (.api r.status r.retryAfter), 1, [])
termination_by maxRetries - retries
decreasing_by
  all_goals
    simp only [Bool.and_eq_true, decide_eq_true_eq] at *
    omega

/-- Embedding of `send_single` for the message whose first transport call has
index `base`. -/
def sendSingle (retryDelays : List Nat) (maxRetries : Nat)
    (trace : Nat → TgResp) (base : Nat) :
    Except TelegramError Unit × Nat × List Nat :=
  sendSingleGo retryDelays maxRetries trace base 0

/-- The message loop of `send_batch`: trim each message, skip empty ones,
send the rest sequentially, failing fast on the first message whose
`send_single` fails. -/
def sendBatchGo (retryDelays : List Nat) (maxRetries : Nat)
    (trace : Nat → TgResp) :
    List (List Char) → Nat → Except TelegramError Unit × Nat × List Nat
  | [], _ => (.ok (), 0, [])
  | m :: rest, base =>
    let text := trim m
    if text.isEmpty then sendBatchGo retryDelays maxRetries trace rest base
    else
      let r := sendSingle retryDelays maxRetries trace base
      match r.1 with
      | .error e => (.error e, r.2.1, r.2.2)
      | .ok () =>
        let r2 := sendBatchGo retryDelays maxRetries trace rest (base + r.2.1)
        (r2.1, r.2.1 + r2.2.1, r.2.2 ++ r2.2.2)

/-- Embedding of `send_batch`: the chat allow-list check, then the message
loop.  Returns the result, the total number of transport calls, and all
sleeps in order. -/
def sendBatch (retryDelays : List Nat) (maxRetries : Nat)
    (chatIds : List Int) (chatId : Int) (messages : List (List Char))
    (trace : Nat → TgResp) : Except TelegramError Unit × Nat × List Nat :=
  if chatId ∉ chatIds then (.error (.unknownChat chatId), 0, [])
  else sendBatchGo retryDelays maxRetries trace messages 0

end Telegram

/-! ## Configuration and the formatter (`config.rs`, `formatter/mod.rs`) -/

/-- `ChatConfig`. -/
structure ChatConfig where
  chat_id : Int
  locales : List (List Char)
  deriving Repr, DecidableEq

/-- `ChatConfig::matches_locale`. -/
def ChatConfig.matchesLocale (c : ChatConfig) (locale : List Char) : Bool :=
  c.locales.isEmpty || c.locales.any (fun l => l = locale)

/-- `TelegramConfig`. -/
structure TelegramConfig where
  chats : List ChatConfig
  deriving Repr, DecidableEq

namespace Formatter

/-- `TELEGRAM_MESSAGE_LIMIT`. -/
def TELEGRAM_MESSAGE_LIMIT : Nat := 4096

/-- `DigitalRelease` of `formatter/mod.rs`.  `release_time` is a
`SystemTime` modelled in whole seconds. -/
structure DigitalRelease where
  id : Nat
  title : List Char
  release_time : Nat
  display_date : List Char
  locale : List Char
  platforms : List (List Char)
  deriving Repr, DecidableEq

/-- `ChatRelease`. -/
structure ChatRelease where
  title : List Char
  release_time : Nat
  display_date : List Char
  platforms : List (List Char)
  priority : Bool
  deriving Repr, DecidableEq

/-- `ChatPayload`. -/
structure ChatPayload where
  chat_id : Int
  releases : List ChatRelease
  deriving Repr, DecidableEq

/-- `TelegramMessage` (with its `TelegramMessage::new` constants). -/
structure TelegramMessage where
  chat_id : Int
  text : List Char
  parse_mode : List Char := "MarkdownV2".toList
  disable_web_page_preview : Bool := true
  deriving Repr, DecidableEq

/-- Embedding of `is_priority`: `now.duration_since(release_time)` succeeds
exactly when the release time is not in the future, and the release is a
priority one when that elapsed time is at most 48 hours. -/
def isPriority (releaseTime now : Nat) : Bool :=
  releaseTime ≤ now && now - releaseTime ≤ 48 * 60 * 60

/-- Rust's `Ord` for `bool`: `false < true`. -/
def boolCmp (a b : Bool) : Ordering :=
  if a = b then .eq else if a then .gt else .lt

/-- `Ord` for the abstract ordinals (`SystemTime`, dates). -/
def natCmp (a b : Nat) : Ordering :=
  if a < b then .lt else if b < a then .gt else .eq

/-- Lexicographic `Ord` on strings by code point, the order `str::cmp`
induces (UTF-8 byte order coincides with code-point order). -/
def strCmp : List Char → List Char → Ordering
  | [], [] => .eq
  | [], _ :: _ => .lt
  | _ :: _, [] => .gt
  | a :: as', b :: bs =>
    match natCmp a.toNat b.toNat with
    | .eq => strCmp as' bs
    | o => o

/-- The comparator passed to `chat_releases.sort_by` in
`group_releases_by_chat`: descending priority, then ascending release time,
then ascending title. -/
def chatReleaseCmp (a b : ChatRelease) : Ordering :=
  match boolCmp b.priority a.priority with
  | .eq =>
    match natCmp a.release_time b.release_time with
    | .eq => strCmp a.title b.title
    | o => o
  | o => o

/-- The ordering relation a list sorted by `chatReleaseCmp` satisfies. -/
def chatReleaseLe (a b : ChatRelease) : Prop := chatReleaseCmp a b ≠ .gt

instance : DecidableRel chatReleaseLe := fun a b => by
  unfold chatReleaseLe; infer_instance

/-- The ordering C7 claims: descending priority, then ascending title (the
release time playing no part). -/
def claimedLe (a b : ChatRelease) : Prop :=
  (match boolCmp b.priority a.priority with
    | .eq => strCmp a.title b.title
    | o => o) ≠ .gt

instance : DecidableRel claimedLe := fun a b => by
  unfold claimedLe; infer_instance

/-- Embedding of `group_releases_by_chat`: per configured chat, keep the
releases matching the chat's locale filter, compute their priority flag,
skip the chat when nothing matched, and sort with `chatReleaseCmp`
(`sort_by` is a stable sort; `List.insertionSort` inserts after equal
elements and is therefore stable as well). -/
def groupReleasesByChat (releases : List DigitalRelease)
    (config : TelegramConfig) (now : Nat) : List ChatPayload :=
  config.chats.foldl
    (fun payloads chat =>
      let chatReleases :=
        (releases.filter (fun r => chat.matchesLocale r.locale)).map
          (fun r =>
            { title := r.title
              release_time := r.release_time
              display_date := r.display_date
              platforms := r.platforms
              priority := isPriority r.release_time now : ChatRelease })
      if chatReleases.isEmpty then payloads
      else
        payloads ++
          [{ chat_id := chat.chat_id
             releases := chatReleases.insertionSort chatReleaseLe }])
    []

/-- Embedding of `escape_markdown_v2`. -/
def escapeMarkdownV2 (text : List Char) : List Char :=
  text.flatMap
    (fun ch =>
      if ch ∈ ['_', '*', '[', ']', '(', ')', '~', '`', '>', '#', '+', '-',
          '=', '|', '{', '}', '.', '!', '\\']
      then ['\\', ch] else [ch])

/-- The body line built for one release inside `build_messages`. -/
def releaseLine (release : ChatRelease) : List Char :=
  let marker := if release.priority then "🔥".toList else "•".toList
  let title := escapeMarkdownV2 release.title
  let platforms :=
    if release.platforms.isEmpty then "—".toList
    else joinSep (release.platforms.map escapeMarkdownV2) ", ".toList
  marker ++ " *".toList ++ title ++ "* — `".toList ++ release.display_date ++
    "` \\(".toList ++ platforms ++ "\\)".toList
where
  /-- `Vec::join(", ")`. -/
  joinSep : List (List Char) → List Char → List Char
    | [], _ => []
    | [t], _ => t
    | t :: ts, sep => t ++ sep ++ joinSep ts sep

/-- The accumulation loop of `chunk_lines`: flush the current chunk when
appending the next line would exceed `maxLen`, then append the line to the
(possibly fresh) chunk. -/
def chunkLinesGo (chatId : Int) (header : List Char) (maxLen : Nat) :
    List (List Char) → List Char → List TelegramMessage
  | [], current =>
    if current.isEmpty then [] else [{ chat_id := chatId, text := current }]
  | line :: rest, current =>
    let additional := 1 + line.length
    if maxLen < current.length + additional then
      { chat_id := chatId, text := current } ::
        chunkLinesGo chatId header maxLen rest (header ++ '\n' :: line)
    else chunkLinesGo chatId header maxLen rest (current ++ '\n' :: line)

/-- Embedding of `chunk_lines`. -/
def chunkLines (chatId : Int) (header : List Char) (lines : List (List Char))
    (maxLen : Nat) : List TelegramMessage :=
  if lines.isEmpty then [] else chunkLinesGo chatId header maxLen lines header

/-- Embedding of `build_messages`. -/
def buildMessages (releases : List DigitalRelease) (config : TelegramConfig)
    (now : Nat) : List TelegramMessage :=
  (groupReleasesByChat releases config now).flatMap
    (fun payload =>
      let header := "*Новые цифровые релизы*".toList
      let lines := payload.releases.map releaseLine
      chunkLines payload.chat_id header lines TELEGRAM_MESSAGE_LIMIT)

/-- Embedding of `build_empty_messages`. -/
def buildEmptyMessages (config : TelegramConfig) : List TelegramMessage :=
  let text := escapeMarkdownV2 "Новых цифровых релизов за окно нет.".toList
  config.chats.map (fun chat => { chat_id := chat.chat_id, text := text })

end Formatter

/-! ## The orchestrator (`orchestrator.rs`)

`Orchestrator::run` is embedded as a function of the effects it consumes:
the artifact download outcome and local-cache content feeding
`SentHistory::restore`, the release provider's result, the per-chat outcome
of `MessageDispatcher::send_messages` (`dispatchOk`), and whether the
artifact upload inside `SentHistory::persist` succeeds (`uploadOk`).

The checked-in `orchestrator.rs` targets an earlier `formatter` revision
(`build_messages` without a `now` argument, `DigitalRelease` without
`platforms`); the embedding reconciles the two files by passing the run's
`now` through to the formatter and filling `platforms` with the empty list,
which is the only value `convert_releases` could produce. -/

namespace Orchestrator

/-- `OrchestratorError` (only the constructors the model can produce). -/
inductive OrchestratorError
  | releases
  | dispatch
  deriving Repr, DecidableEq

/-- `RunSummary`. -/
structure RunSummary where
  fetched : Nat
  new_releases : Nat
  duplicates : Nat
  messages_sent : Nat
  history_appended : Nat
  deriving Repr, DecidableEq

/-- Everything observable about one run: the returned value, the final
in-memory ledger, the bytes `restore` wrote to the local cache (if it
downloaded an artifact), the bytes `persist` wrote to the local cache (if it
ran), and the bytes successfully uploaded to the artifact store. -/
structure RunOutcome where
  result : Except OrchestratorError RunSummary
  ids : List Nat
  restoreSaved : Option (List Char)
  persistSavedLocal : Option (List Char)
  uploads : List (List Char)
  deriving Repr

/-- Embedding of `Orchestrator::filter_new_releases`: partition the fetched
releases into those whose id the ledger does not contain and a count of the
duplicates. -/
def filterNewReleases (ids : List Nat) (releases : List Tmdb.MovieRelease) :
    List Tmdb.MovieRelease × Nat :=
  releases.foldl
    (fun (acc : List Tmdb.MovieRelease × Nat) release =>
      if release.id ∈ ids then (acc.1, acc.2 + 1)
      else (acc.1 ++ [release], acc.2))
    ([], 0)

/-- Embedding of `Orchestrator::convert_releases`: the release time is the
midnight of the digital release date (whole seconds) and the display date its
formatted form. -/
def convertReleases (releases : List Tmdb.MovieRelease) :
    List Formatter.DigitalRelease :=
  releases.map
    (fun release =>
      { id := release.id
        title := release.title
        release_time := release.digital_release_date * 86400
        display_date := toDecChars release.digital_release_date
        locale := release.original_language
        platforms := [] })

/-- The `grouped: HashMap<i64, Vec<String>>` accumulation of `run`, modelled
as an association list in first-appearance order (the claims settled against
the model do not depend on the map's iteration order). -/
def groupByChatId (messages : List Formatter.TelegramMessage) :
    List (Int × List (List Char)) :=
  messages.foldl
    (fun grouped message =>
      if grouped.any (fun g => g.1 = message.chat_id) then
        grouped.map
          (fun g =>
            if g.1 = message.chat_id then (g.1, g.2 ++ [message.text]) else g)
      else grouped ++ [(message.chat_id, [message.text])])
    []

/-- The ledger as `restore` leaves it at the start of a run: a restore error
is logged and the previous in-memory set (the constructor's empty set in
production) is kept. -/
def postRestoreIds (h0 : List Nat) (download : Except Unit (Option (List Char)))
    (localFile : Option (List Char)) : List Nat :=
  (SentHistory.restore h0 download localFile).1

/-- The chats `run` dispatches to, in order: one per non-empty payload group
in the main path, one per configured chat in the "no releases" path. -/
def dispatchTargets (config : TelegramConfig) (now : Nat)
    (unique : List Tmdb.MovieRelease) : List Int :=
  if unique.isEmpty then
    (Formatter.buildEmptyMessages config).map (fun m => m.chat_id)
  else
    (groupByChatId
      (Formatter.buildMessages (convertReleases unique) config now)).map
      Prod.fst

/-- Whether every `send_messages` call of the run succeeds. -/
def allDispatchOk (config : TelegramConfig) (now : Nat)
    (unique : List Tmdb.MovieRelease) (dispatchOk : Int → Bool) : Bool :=
  (dispatchTargets config now unique).all dispatchOk

/-- The bytes `restore` writes to the local cache: exactly the downloaded
artifact bytes, when the download produced one. -/
def restoreSavedBytes (download : Except Unit (Option (List Char))) :
    Option (List Char) :=
  match download with
  | .ok (some bytes) => some bytes
  | _ => none

/-- Embedding of `Orchestrator::run`.  Stage order mirrors the source:
restore (failure logged, run continues), fetch (failure aborts), filter,
the "no releases" path or the dispatch path (first failed `send_messages`
aborts, nothing later runs), then `append` and — only when something was
inserted — `persist`, whose failure is logged (`продолжаю без ошибки`)
and does not change the returned value. -/
def run (h0 : List Nat) (download : Except Unit (Option (List Char)))
    (localFile : Option (List Char)) (uploadOk : Bool)
    (fetchResult : Except Unit (List Tmdb.MovieRelease))
    (dispatchOk : Int → Bool) (config : TelegramConfig) (now : Nat) :
    RunOutcome :=
  let restoreSaved := restoreSavedBytes download
  let ids1 := postRestoreIds h0 download localFile
  match fetchResult with
  | .error _ =>
    { result := .error .releases
      ids := ids1
      restoreSaved := restoreSaved
      persistSavedLocal := none
      uploads := [] }
  | .ok releases =>
    let filtered := filterNewReleases ids1 releases
    let unique := filtered.1
    let duplicates := filtered.2
    if unique.isEmpty then
      let emptyMessages := Formatter.buildEmptyMessages config
      if (emptyMessages.map (fun m => m.chat_id)).all dispatchOk then
        { result := .ok
            { fetched := duplicates
              new_releases := 0
              duplicates := duplicates
              messages_sent := emptyMessages.length
              history_appended := 0 }
          ids := ids1
          restoreSaved := restoreSaved
          persistSavedLocal := none
          uploads := [] }
      else
        { result := .error .dispatch
          ids := ids1
          restoreSaved := restoreSaved
          persistSavedLocal := none
          uploads := [] }
    else
      let messages :=
        Formatter.buildMessages (convertReleases unique) config now
      let grouped := groupByChatId messages
      if (grouped.map Prod.fst).all dispatchOk then
        let appended := SentHistory.append (unique.map (fun r => r.id)) ids1
        let ids2 := appended.1
        let inserted := appended.2
        { result := .ok
            { fetched := unique.length + duplicates
              new_releases := unique.length
              duplicates := duplicates
              messages_sent := messages.length
              history_appended := inserted }
          ids := ids2
          restoreSaved := restoreSaved
          persistSavedLocal :=
            if 0 < inserted then some (SentHistory.renderFile ids2) else none
          uploads :=
            if 0 < inserted && uploadOk then [SentHistory.renderFile ids2]
            else [] }
      else
        { result := .error .dispatch
          ids := ids1
          restoreSaved := restoreSaved
          persistSavedLocal := none
          uploads := [] }

end Orchestrator

/-! ## Lemmas about the ledger set representation -/

namespace SentHistory

theorem mem_btInsert (x z : Nat) (s : List Nat) :
    z ∈ btInsert x s ↔ z = x ∨ z ∈ s := by
  induction s with
  | nil => simp [btInsert]
  | cons y ys ih =>
    simp only [btInsert]
    split_ifs with h1 h2
    · simp
    · subst h2
      simp only [List.mem_cons]
      tauto
    · simp only [List.mem_cons, ih]
      tauto

theorem btInsert_of_mem {x : Nat} {s : List Nat}
    (hs : s.Sorted (· < ·)) (hx : x ∈ s) : btInsert x s = s := by
  induction s with
  | nil => cases hx
  | cons y ys ih =>
    rw [List.sorted_cons] at hs
    rcases List.mem_cons.mp hx with heq | hmem
    · subst heq
      simp [btInsert]
    · have hyx : y < x := hs.1 x hmem
      have hlt : ¬x < y := by omega
      have hne : x ≠ y := by omega
      simp [btInsert, hlt, hne, ih hs.2 hmem]

theorem length_btInsert_of_not_mem {x : Nat} {s : List Nat} (hx : x ∉ s) :
    (btInsert x s).length = s.length + 1 := by
  induction s with
  | nil => simp [btInsert]
  | cons y ys ih =>
    have hne : x ≠ y := by
      intro h; exact hx (h ▸ List.mem_cons_self x ys)
    have hmem : x ∉ ys := fun h => hx (List.mem_cons_of_mem y h)
    by_cases hlt : x < y
    · simp [btInsert, hlt]
    · simp [btInsert, hlt, hne, ih hmem]

theorem sorted_btInsert (x : Nat) {s : List Nat}
    (hs : s.Sorted (· < ·)) : (btInsert x s).Sorted (· < ·) := by
  induction s with
  | nil => simp [btInsert]
  | cons y ys ih =>
    rw [List.sorted_cons] at hs
    by_cases hlt : x < y
    · rw [btInsert, if_pos hlt, List.sorted_cons]
      refine ⟨?_, List.sorted_cons.mpr hs⟩
      intro b hb
      rcases List.mem_cons.mp hb with h | h
      · omega
      · have := hs.1 b h; omega
    · by_cases heq : x = y
      · rw [btInsert, if_neg hlt, if_pos heq]
        exact List.sorted_cons.mpr hs
      · rw [btInsert, if_neg hlt, if_neg heq, List.sorted_cons]
        refine ⟨?_, ih hs.2⟩
        intro b hb
        rcases (mem_btInsert x b ys).mp hb with h | h
        · omega
        · exact hs.1 b h

theorem mem_append_fst (input s : List Nat) (z : Nat) :
    z ∈ (append input s).1 ↔ z ∈ input ∨ z ∈ s := by
  induction input generalizing s with
  | nil => simp [append]
  | cons x xs ih =>
    simp only [append, List.mem_cons, ih, mem_btInsert]
    tauto

theorem sorted_append_fst (input : List Nat) {s : List Nat}
    (hs : s.Sorted (· < ·)) : ((append input s).1).Sorted (· < ·) := by
  induction input generalizing s with
  | nil => exact hs
  | cons x xs ih => exact ih (sorted_btInsert x hs)

theorem length_append_fst (input : List Nat) {s : List Nat}
    (hs : s.Sorted (· < ·)) :
    (append input s).1.length = s.length + (append input s).2 := by
  induction input generalizing s with
  | nil => simp [append]
  | cons x xs ih =>
    by_cases hx : x ∈ s
    · simp only [append, if_pos hx, btInsert_of_mem hs hx]
      have := ih hs
      omega
    · simp only [append, if_neg hx]
      have h1 := ih (sorted_btInsert x hs)
      have h2 := length_btInsert_of_not_mem hx
      omega

theorem append_of_subset {input s : List Nat} (hs : s.Sorted (· < ·))
    (h : ∀ x ∈ input, x ∈ s) : append input s = (s, 0) := by
  induction input with
  | nil => rfl
  | cons x xs ih =>
    have hx : x ∈ s := h x (List.mem_cons_self x xs)
    simp only [append, if_pos hx, btInsert_of_mem hs hx]
    rw [ih (fun y hy => h y (List.mem_cons_of_mem x hy))]
    simp

theorem toFinset_append_fst (input s : List Nat) :
    (append input s).1.toFinset = input.toFinset ∪ s.toFinset := by
  apply Finset.ext
  intro z
  simp [List.mem_toFinset, mem_append_fst, Finset.mem_union]

theorem append_snd_eq_card {input s : List Nat} (hs : s.Sorted (· < ·)) :
    (append input s).2 = (input.toFinset \ s.toFinset).card := by
  have hnodup : (append input s).1.Nodup := (sorted_append_fst input hs).nodup
  have hsnodup : s.Nodup := hs.nodup
  have hlen := length_append_fst input hs
  have hcard1 : (append input s).1.toFinset.card = (append input s).1.length :=
    List.toFinset_card_of_nodup hnodup
  have hcard2 : s.toFinset.card = s.length := List.toFinset_card_of_nodup hsnodup
  have hunion := toFinset_append_fst input s
  have hsd : (input.toFinset \ s.toFinset).card + s.toFinset.card
      = (input.toFinset ∪ s.toFinset).card :=
    Finset.card_sdiff_add_card input.toFinset s.toFinset
  rw [← hunion] at hsd
  omega

end SentHistory

/-- **C9.** `SentHistory::append` over any ledger set (sorted, as the
`BTreeSet` representation guarantees) and any input slice: the final set is
the old one plus exactly the input ids, the returned count is the number of
ids actually added — the cardinality of the set difference, so ids already
present and repetitions inside the slice are not double-counted — and a
second call with the same slice returns `0` and leaves the set (hence its
size) unchanged. -/
theorem c9_append_counts_new_ids_and_is_idempotent
    (s input : List Nat) (hs : s.Sorted (· < ·)) :
    (∀ z, z ∈ (SentHistory.append input s).1 ↔ z ∈ input ∨ z ∈ s) ∧
    (SentHistory.append input s).1.length
      = s.length + (SentHistory.append input s).2 ∧
    (SentHistory.append input s).2
      = (input.toFinset \ s.toFinset).card ∧
    SentHistory.append input (SentHistory.append input s).1
      = ((SentHistory.append input s).1, 0) := by
  refine ⟨SentHistory.mem_append_fst input s,
    SentHistory.length_append_fst input hs,
    SentHistory.append_snd_eq_card hs, ?_⟩
  exact SentHistory.append_of_subset (SentHistory.sorted_append_fst input hs)
    (fun x hx => (SentHistory.mem_append_fst input s x).mpr (Or.inl hx))

/-! ## Decimal rendering and parsing round-trip -/

theorem digitChar_isDigit {d : Nat} (hd : d < 10) :
    (digitChar d).isDigit = true := by
  interval_cases d <;> decide

theorem digitVal_digitChar {d : Nat} (hd : d < 10) :
    digitVal (digitChar d) = d := by
  interval_cases d <;> decide

theorem digitChar_ne_newline {d : Nat} (hd : d < 10) : digitChar d ≠ '\n' := by
  interval_cases d <;> decide

theorem digitChar_ne_cr {d : Nat} (hd : d < 10) : digitChar d ≠ '\r' := by
  interval_cases d <;> decide

theorem digitChar_ne_plus {d : Nat} (hd : d < 10) : digitChar d ≠ '+' := by
  interval_cases d <;> decide

theorem digitChar_not_whitespace {d : Nat} (hd : d < 10) :
    isRustWhitespace (digitChar d) = false := by
  interval_cases d <;> decide

theorem toDecCharsAux_eq_digits :
    ∀ (fuel n : Nat), n ≤ fuel →
      toDecCharsAux fuel n = (Nat.digits 10 n).reverse.map digitChar := by
  intro fuel
  induction fuel with
  | zero =>
    intro n hn
    have : n = 0 := by omega
    subst this
    simp [toDecCharsAux]
  | succ fuel ih =>
    intro n hn
    by_cases hzero : n = 0
    · subst hzero
      simp [toDecCharsAux]
    · rw [toDecCharsAux, if_neg hzero,
        ih (n / 10) (by omega),
        Nat.digits_def' (by norm_num : 1 < 10) (Nat.pos_of_ne_zero hzero),
        List.reverse_cons, List.map_append]
      rfl

theorem toDecChars_digits (n : Nat) :
    ∃ L : List Nat, (∀ d ∈ L, d < 10) ∧ L ≠ [] ∧
      toDecChars n = (L.reverse.map digitChar) ∧ Nat.ofDigits 10 L = n := by
  by_cases hn : n = 0
  · exact ⟨[0], by simp, by simp, by simp [hn, toDecChars, digitChar], by
      simp [hn, Nat.ofDigits]⟩
  · refine ⟨Nat.digits 10 n, ?_, ?_, ?_, Nat.ofDigits_digits 10 n⟩
    · exact fun d hd => Nat.digits_lt_base (by norm_num) hd
    · exact Nat.digits_ne_nil_iff_ne_zero.mpr hn
    · rw [toDecChars, if_neg hn, toDecCharsAux_eq_digits n n (le_refl n)]

theorem foldl_horner (L : List Nat) (acc : Nat) :
    L.reverse.foldl (fun a d => 10 * a + d) acc
      = acc * 10 ^ L.length + Nat.ofDigits 10 L := by
  induction L generalizing acc with
  | nil => simp [Nat.ofDigits_nil]
  | cons d ds ih =>
    simp only [List.reverse_cons, List.foldl_append, List.foldl_cons,
      List.foldl_nil, ih, Nat.ofDigits_cons, List.length_cons]
    ring

theorem toDecChars_spec (n : Nat) :
    ∃ M : List Nat, (∀ d ∈ M, d < 10) ∧ M ≠ [] ∧
      toDecChars n = M.map digitChar ∧
      M.foldl (fun a d => 10 * a + d) 0 = n := by
  obtain ⟨L, hlt, hne, heq, hval⟩ := toDecChars_digits n
  refine ⟨L.reverse, ?_, ?_, heq, ?_⟩
  · exact fun d hd => hlt d (List.mem_reverse.mp hd)
  · exact fun h => hne (List.reverse_eq_nil_iff.mp h)
  · rw [foldl_horner, hval]
    simp

theorem toDecChars_ne_nil (n : Nat) : toDecChars n ≠ [] := by
  obtain ⟨M, _, hM, heq, _⟩ := toDecChars_spec n
  rw [heq]
  intro h
  exact hM (List.map_eq_nil_iff.mp h)

theorem mem_toDecChars_isDigitChar {n : Nat} {c : Char}
    (hc : c ∈ toDecChars n) : ∃ d < 10, c = digitChar d := by
  obtain ⟨M, hlt, _, heq, _⟩ := toDecChars_spec n
  rw [heq] at hc
  obtain ⟨d, hd, rfl⟩ := List.mem_map.mp hc
  exact ⟨d, hlt d hd, rfl⟩

theorem parseDigitsAux_map_digitChar {L : List Nat} (hL : ∀ d ∈ L, d < 10)
    (acc : Nat) :
    parseDigitsAux acc (L.map digitChar)
      = some (L.foldl (fun a d => 10 * a + d) acc) := by
  induction L generalizing acc with
  | nil => rfl
  | cons d ds ih =>
    have hd : d < 10 := hL d (List.mem_cons_self d ds)
    simp only [List.map_cons, parseDigitsAux, digitChar_isDigit hd, if_pos,
      List.foldl_cons, digitVal_digitChar hd]
    exact ih (fun e he => hL e (List.mem_cons_of_mem d he)) _

theorem parseU64_toDecChars {n : Nat} (hn : n < 2 ^ 64) :
    parseU64 (toDecChars n) = some n := by
  obtain ⟨M, hlt, hne, heq, hval⟩ := toDecChars_spec n
  rw [heq]
  obtain ⟨d, ds, rfl⟩ := List.exists_cons_of_ne_nil hne
  have hd : d < 10 := hlt d (List.mem_cons_self d ds)
  have hplus := digitChar_ne_plus hd
  have hpd := parseDigitsAux_map_digitChar hlt 0
  rw [hval] at hpd
  simp only [List.map_cons] at hpd
  simp only [parseU64, List.map_cons, if_neg hplus, List.isEmpty_cons,
    Bool.false_eq_true, if_false, hpd, if_pos hn]

/-! ## Line splitting and joining -/

theorem splitOnChar_of_not_mem {sep : Char} {t : List Char}
    (h : sep ∉ t) : splitOnChar sep t = [t] := by
  induction t with
  | nil => rfl
  | cons x xs ih =>
    have hx : x ≠ sep := fun hx => h (hx ▸ List.mem_cons_self x xs)
    rw [splitOnChar, if_neg hx, ih (fun hm => h (List.mem_cons_of_mem x hm))]

theorem splitOnChar_append {sep : Char} {t rest : List Char}
    (h : sep ∉ t) :
    splitOnChar sep (t ++ sep :: rest) = t :: splitOnChar sep rest := by
  induction t with
  | nil => simp [splitOnChar]
  | cons x xs ih =>
    have hx : x ≠ sep := fun hx => h (hx ▸ List.mem_cons_self x xs)
    rw [List.cons_append, splitOnChar, if_neg hx,
      ih (fun hm => h (List.mem_cons_of_mem x hm))]

theorem splitOnChar_joinLines {ts : List (List Char)} (hne : ts ≠ [])
    (h : ∀ t ∈ ts, '\n' ∉ t) :
    splitOnChar '\n' (joinLines ts) = ts := by
  induction ts with
  | nil => cases hne rfl
  | cons t rest ih =>
    cases rest with
    | nil =>
      exact splitOnChar_of_not_mem (h t (List.mem_cons_self t []))
    | cons u us =>
      have hne2 : u :: us ≠ [] := List.cons_ne_nil u us
      have hih := ih hne2 (fun v hv => h v (List.mem_cons_of_mem t hv))
      rw [joinLines,
        splitOnChar_append (h t (List.mem_cons_self t (u :: us))), hih]
      exact hne2

theorem dropWhile_eq_self_of_all {P : Char → Bool} {l : List Char}
    (h : ∀ c ∈ l, P c = false) : l.dropWhile P = l := by
  cases l with
  | nil => rfl
  | cons x xs =>
    rw [List.dropWhile_cons, h x (List.mem_cons_self x xs)]
    simp

theorem trim_eq_self_of_no_whitespace {l : List Char}
    (h : ∀ c ∈ l, isRustWhitespace c = false) : trim l = l := by
  unfold trim
  rw [dropWhile_eq_self_of_all h,
    dropWhile_eq_self_of_all (fun c hc => h c (List.mem_reverse.mp hc)),
    List.reverse_reverse]

theorem stripCR_of_getLast_ne {l : List Char}
    (h : l.getLast? ≠ some '\r') : stripCR l = l := by
  rw [stripCR, if_neg h]

/-! ## Restore ∘ persist round-trip (C4 machinery) -/

namespace SentHistory

theorem rustLines_renderFile {S : List Nat} (hne : S ≠ []) :
    rustLines (renderFile S) = S.map toDecChars := by
  have hnonl : ∀ t ∈ S.map toDecChars, '\n' ∉ t := by
    intro t ht hmem
    obtain ⟨n, _, rfl⟩ := List.mem_map.mp ht
    obtain ⟨d, hd, hc⟩ := mem_toDecChars_isDigitChar hmem
    exact digitChar_ne_newline hd hc.symm
  have hsplit :
      splitOnChar '\n' (joinLines (S.map toDecChars)) = S.map toDecChars :=
    splitOnChar_joinLines (by simpa using hne) hnonl
  have hlast : ¬(S.map toDecChars).getLast? = some ([] : List Char) := by
    intro hcontra
    have hmem : ([] : List Char) ∈ S.map toDecChars :=
      List.mem_of_mem_getLast? hcontra
    obtain ⟨n, _, hn⟩ := List.mem_map.mp hmem
    exact toDecChars_ne_nil n hn
  rw [rustLines, renderFile]
  simp only [hsplit, if_neg hlast, List.map_map]
  apply List.map_congr_left
  intro n _
  show stripCR (toDecChars n) = toDecChars n
  apply stripCR_of_getLast_ne
  intro hcontra
  have hmem : '\r' ∈ toDecChars n := List.mem_of_mem_getLast? hcontra
  obtain ⟨d, hd, hc⟩ := mem_toDecChars_isDigitChar hmem
  exact digitChar_ne_cr hd hc.symm

theorem mem_foldl_btInsert (S acc : List Nat) (z : Nat) :
    z ∈ S.foldl (fun a n => btInsert n a) acc ↔ z ∈ S ∨ z ∈ acc := by
  induction S generalizing acc with
  | nil => simp
  | cons x xs ih =>
    simp only [List.foldl_cons, ih, mem_btInsert, List.mem_cons]
    tauto

theorem sorted_foldl_btInsert (S : List Nat) {acc : List Nat}
    (hacc : acc.Sorted (· < ·)) :
    (S.foldl (fun a n => btInsert n a) acc).Sorted (· < ·) := by
  induction S generalizing acc with
  | nil => exact hacc
  | cons x xs ih => exact ih (sorted_btInsert x hacc)

theorem foldl_btInsert_eq_self {S : List Nat} (hS : S.Sorted (· < ·)) :
    S.foldl (fun a n => btInsert n a) [] = S := by
  have hsorted := @sorted_foldl_btInsert S [] (by simp)
  have hnodup := hsorted.nodup
  have hperm : List.Perm (S.foldl (fun a n => btInsert n a) []) S := by
    rw [List.perm_ext_iff_of_nodup hnodup hS.nodup]
    intro a
    simp [mem_foldl_btInsert]
  exact List.eq_of_perm_of_sorted hperm hsorted hS

theorem parseLines_map_toDecChars {S : List Nat} (hb : ∀ n ∈ S, n < 2 ^ 64)
    (acc : List Nat) :
    parseLines (S.map toDecChars) acc
      = .ok (S.foldl (fun a n => btInsert n a) acc) := by
  induction S generalizing acc with
  | nil => rfl
  | cons n ns ih =>
    have hnws : ∀ c ∈ toDecChars n, isRustWhitespace c = false := by
      intro c hc
      obtain ⟨d, hd, rfl⟩ := mem_toDecChars_isDigitChar hc
      exact digitChar_not_whitespace hd
    have htrim := trim_eq_self_of_no_whitespace hnws
    have hempty : (toDecChars n).isEmpty = false :=
      List.isEmpty_eq_false.mpr (toDecChars_ne_nil n)
    simp only [List.map_cons, parseLines, htrim, hempty, Bool.false_eq_true,
      if_false, parseU64_toDecChars (hb n (List.mem_cons_self n ns)),
      List.foldl_cons]
    exact ih (fun m hm => hb m (List.mem_cons_of_mem n hm)) _

theorem renderFile_ne_nil {S : List Nat} (hne : S ≠ []) :
    renderFile S ≠ [] := by
  obtain ⟨n, ns, rfl⟩ := List.exists_cons_of_ne_nil hne
  cases ns with
  | nil => exact fun h => toDecChars_ne_nil n (by simpa [renderFile, joinLines] using h)
  | cons m ms =>
    rw [renderFile]
    simp only [List.map_cons, joinLines]
    intro h
    exact toDecChars_ne_nil n (List.append_eq_nil.mp h).1

theorem applyRaw_renderFile {S : List Nat} (hS : S.Sorted (· < ·))
    (hb : ∀ n ∈ S, n < 2 ^ 64) : applyRaw (renderFile S) = .ok S := by
  by_cases hne : S = []
  · subst hne
    rfl
  · rw [applyRaw,
      if_neg (by simpa using renderFile_ne_nil hne),
      rustLines_renderFile hne, parseLines_map_toDecChars hb,
      foldl_btInsert_eq_self hS]

end SentHistory

/-- **C4.** Restoring a `SentHistory` from the exact bytes `persist` uploads
for the in-memory id set `S` (the `BTreeSet` of `u64`s, i.e. a strictly
ascending list of ids below `2 ^ 64`) reproduces `S`, whatever set the
restoring instance held before and whatever its local cache contains — the
remote blob wins; and the persisted bytes decompose into lines that are
exactly the decimal renderings of the ids in ascending (list) order,
separated by newlines. -/
theorem c4_persist_restore_roundtrip (S h0 : List Nat)
    (localFile : Option (List Char)) (hS : S.Sorted (· < ·))
    (hb : ∀ n ∈ S, n < 2 ^ 64) :
    SentHistory.restore h0 (.ok (some (SentHistory.renderFile S))) localFile
        = (S, .ok ()) ∧
    (S ≠ [] →
      rustLines (SentHistory.renderFile S) = S.map toDecChars) := by
  constructor
  · rw [SentHistory.restore, SentHistory.applyRaw_renderFile hS hb]
  · exact fun hne => SentHistory.rustLines_renderFile hne

/-- Witness for C4 at a concrete set: `S = [0, 5, 18446744073709551615]`
(`u64::MAX` included), arbitrary prior set `[99]`, stale local cache. -/
theorem c4_persist_restore_roundtrip_witness :
    (SentHistory.restore [99]
        (.ok (some (SentHistory.renderFile [0, 5, 18446744073709551615])))
        (some "1\n2".toList)
      = ([0, 5, 18446744073709551615], .ok ())) ∧
    ([0, 5, 18446744073709551615] ≠ ([] : List Nat) →
      rustLines (SentHistory.renderFile [0, 5, 18446744073709551615])
        = [0, 5, 18446744073709551615].map toDecChars) :=
  c4_persist_restore_roundtrip [0, 5, 18446744073709551615] [99]
    (some "1\n2".toList) (by decide) (by decide)

/-! ## Malformed ledger lines (C8 machinery) -/

theorem parseLines_error_of_bad_line {lines : List (List Char)}
    (acc : List Nat)
    (hbad : ∃ l ∈ lines, (trim l).isEmpty = false ∧ parseU64 (trim l) = none) :
    ∃ v, SentHistory.parseLines lines acc = .error v := by
  induction lines generalizing acc with
  | nil =>
    obtain ⟨l, hl, _⟩ := hbad
    cases hl
  | cons l ls ih =>
    obtain ⟨l', hl', hne', hparse'⟩ := hbad
    by_cases hempty : (trim l).isEmpty = true
    · have hmem : l' ∈ ls := by
        rcases List.mem_cons.mp hl' with rfl | hmem
        · rw [hempty] at hne'
          cases hne'
        · exact hmem
      rw [SentHistory.parseLines, if_pos hempty]
      exact ih acc ⟨l', hmem, hne', hparse'⟩
    · rw [SentHistory.parseLines,
        if_neg (by simpa using hempty)]
      cases hcase : parseU64 (trim l) with
      | none => exact ⟨trim l, rfl⟩
      | some id =>
        have hmem : l' ∈ ls := by
          rcases List.mem_cons.mp hl' with rfl | hmem
          · rw [hcase] at hparse'
            cases hparse'
          · exact hmem
        exact ih _ ⟨l', hmem, hne', hparse'⟩

/-- **C8.** If the ledger bytes contain a non-empty (after trimming) line
that does not parse as an unsigned 64-bit integer, restoring from them fails
with `StateError::InvalidId` for the whole file — no skip-and-continue — and
the previously held in-memory id set is left exactly as it was. -/
theorem c8_malformed_line_aborts_restore (data : List Char) (h0 : List Nat)
    (localFile : Option (List Char))
    (hbad : ∃ l ∈ rustLines data,
      (trim l).isEmpty = false ∧ parseU64 (trim l) = none) :
    ∃ v, SentHistory.restore h0 (.ok (some data)) localFile
      = (h0, .error (.invalidId v)) := by
  have hdata : data.isEmpty = false := by
    cases data with
    | nil =>
      obtain ⟨l, hl, _⟩ := hbad
      cases hl
    | cons c cs => rfl
  obtain ⟨v, hv⟩ := parseLines_error_of_bad_line [] hbad
  refine ⟨v, ?_⟩
  rw [SentHistory.restore, SentHistory.applyRaw,
    if_neg (by simpa using hdata), hv]

/-- Witness for C8: content `"12\nx7\n3"` whose middle line is not numeric;
the prior in-memory set `[5]` survives the failed restore. -/
theorem c8_malformed_line_aborts_restore_witness :
    ∃ v, SentHistory.restore [5] (.ok (some "12\nx7\n3".toList)) none
      = ([5], .error (.invalidId v)) :=
  c8_malformed_line_aborts_restore "12\nx7\n3".toList [5] none
    (by decide)

/-! ## Release-date selection (C3 machinery) -/

namespace Tmdb

/-- The one-step minimum accumulation used by both running minima of
`select_preferred_date`. -/
def optMin (o : Option Nat) (d : Nat) : Option Nat :=
  some (o.elim d (fun current => min current d))

theorem foldl_optMin_some (l : List Nat) (m : Nat) :
    l.foldl optMin (some m) = some (l.foldl min m) := by
  induction l generalizing m with
  | nil => rfl
  | cons x xs ih => simpa [optMin] using ih (min m x)

theorem foldl_optMin_none (l : List Nat) :
    l.foldl optMin none = l.min? := by
  cases l with
  | nil => rfl
  | cons x xs =>
    rw [List.foldl_cons]
    exact foldl_optMin_some xs x

theorem selectPreferredDate_fold (dates : List Nat) (today : Nat)
    (p a : Option Nat) :
    dates.foldl
      (fun (acc : Option Nat × Option Nat) date =>
        let allMin := some (acc.2.elim date (fun current => min current date))
        let pastMin :=
          if date ≤ today then
            some (acc.1.elim date (fun current => min current date))
          else acc.1
        (pastMin, allMin))
      (p, a)
      = ((dates.filter (fun d => d ≤ today)).foldl optMin p,
          dates.foldl optMin a) := by
  induction dates generalizing p a with
  | nil => rfl
  | cons d ds ih =>
    by_cases hd : d ≤ today
    · simp only [List.foldl_cons, List.filter_cons, if_pos hd,
        decide_eq_true hd, optMin]
      exact ih _ _
    · simp only [List.foldl_cons, List.filter_cons, if_neg hd,
        decide_eq_false hd, optMin]
      exact ih _ _

theorem selectPreferredDate_eq_min (dates : List Nat) (today : Nat) :
    selectPreferredDate dates today
      = ((dates.filter (fun d => d ≤ today)).min?).or dates.min? := by
  rw [selectPreferredDate, selectPreferredDate_fold, foldl_optMin_none,
    foldl_optMin_none]

end Tmdb

/-- **C3 counterexample.** A payload with a single priority region `RU`
holding the type-4 dates `10` and `90` on a day where both are in the past
(`today = 100`): the claimed rule (»the date closest to today that is not in
the future«) picks `90`, but `select_digital_release_date` returns the
*earliest* past date `10` — as the source's own unit test
(`digital_release_date_prefers_priority_region`) also expects. -/
theorem c3_counterexample_earliest_not_closest :
    Tmdb.selectDigitalReleaseDate
        [{ region := "RU".toList
           release_dates :=
             [{ release_date := some 10, release_type := 4 },
              { release_date := some 90, release_type := 4 }] }] 100
      = some 10 ∧
    Tmdb.selectDigitalReleaseDate
        [{ region := "RU".toList
           release_dates :=
             [{ release_date := some 10, release_type := 4 },
              { release_date := some 90, release_type := 4 }] }] 100
      ≠ some 90 := by
  constructor <;> decide

/-- **C3 (amended).** `select_digital_release_date` chooses the region by
the fixed priority order, falling back to all regions' type-4 dates when no
priority region has one, and within the chosen dates it returns the
*earliest* date not in the future when one exists, otherwise the earliest
(hence closest) future date: the result is the minimum of the non-future
dates, or the minimum of all dates when every date lies in the future. -/
theorem c3_selects_min_past_then_min_future
    (results : List Tmdb.ReleaseDatesRegion) (today : Nat) :
    Tmdb.selectDigitalReleaseDate results today
      = (let m := Tmdb.collectByRegion results
         let chosen :=
           match Tmdb.firstPriorityRegion m with
           | some dates => dates
           | none => (m.map Prod.snd).flatten
         ((chosen.filter (fun d => d ≤ today)).min?).or chosen.min?) := by
  rw [Tmdb.selectDigitalReleaseDate]
  cases h : Tmdb.firstPriorityRegion (Tmdb.collectByRegion results) with
  | none =>
    simp only [h]
    exact Tmdb.selectPreferredDate_eq_min _ today
  | some dates =>
    simp only [h]
    exact Tmdb.selectPreferredDate_eq_min dates today

/-! ## Bounded retry of the catalog fetcher (C5 machinery) -/

namespace Tmdb

theorem executeWithRetryGo_exhausted (trace : Nat → HttpOutcome)
    (delays : List Nat) (i : Nat)
    (h : ∀ j, i ≤ j → j ≤ i + delays.length → isServerError5xx (trace j) = true) :
    executeWithRetryGo trace delays i
      = (.error .retryLimitExceeded, delays.length + 1, delays) := by
  induction delays generalizing i with
  | nil =>
    have hi := h i (le_refl i) (by simp)
    simp [executeWithRetryGo, hi]
  | cons d rest ih =>
    have hi := h i (le_refl i) (by simp)
    have hrec := ih (i + 1) (fun j hj1 hj2 => h j (by omega) (by simp; omega))
    simp [executeWithRetryGo, hi, hrec]

theorem executeWithRetryGo_partial_success (trace : Nat → HttpOutcome)
    (k : Nat) (s : Nat) :
    ∀ (delays : List Nat) (i : Nat), k ≤ delays.length →
    (∀ j, i ≤ j → j < i + k → isServerError5xx (trace j) = true) →
    trace (i + k) = .resp s → is5xx s = false →
    executeWithRetryGo trace delays i = (.ok s, k + 1, delays.take k) := by
  induction k with
  | zero =>
    intro delays i _ _ htrace hs
    simp only [Nat.add_zero] at htrace
    have hi : isServerError5xx (.resp s) = false := by
      simp [isServerError5xx, hs]
    cases delays <;> simp [executeWithRetryGo, hi, attemptValue, htrace]
  | succ k ih =>
    intro delays i hk hserver htrace hs
    cases delays with
    | nil => simp at hk
    | cons d rest =>
      have hi := hserver i (le_refl i) (by omega)
      have hrec := ih rest (i + 1) (by simpa using hk)
        (fun j hj1 hj2 => hserver j (by omega) (by omega))
        (by rw [show i + 1 + k = i + (k + 1) by omega]; exact htrace) hs
      simp [executeWithRetryGo, hi, hrec]

theorem executeWithRetryGo_transport_error (trace : Nat → HttpOutcome)
    (delays : List Nat) (i : Nat) (os : Option Nat)
    (htrace : trace i = .err os)
    (hos : (os.map is5xx).getD false = false) :
    executeWithRetryGo trace delays i = (.error (.http os), 1, []) := by
  have hi : isServerError5xx (.err os) = false := by
    simp [isServerError5xx, hos]
  cases delays <;> simp [executeWithRetryGo, hi, attemptValue, htrace]

end Tmdb

/-- **C5.** The bounded-retry policy of the catalog fetcher, for any trace of
transport outcomes: (1) if the first `k ≤ 3` attempts are 5xx-class failures
and attempt `k` returns a non-5xx response, the call succeeds after exactly
`k + 1` attempts, having slept exactly the first `k` delays of the 5/15/30
minute schedule, in order; (2) if every attempt up to the 4th is a 5xx-class
failure, the fetch fails with `RetryLimitExceeded` after exactly 4 transport
calls, having slept 5, 15 and 30 minutes; (3) a transport error without a
5xx status fails immediately with one call and no sleep; (4) a client-error
status is not retried: `fetch_json` fails with `UnexpectedStatus` after one
call and no sleep. -/
theorem c5_retry_schedule_and_fail_fast (trace : Nat → Tmdb.HttpOutcome) :
    (∀ k s, k ≤ 3 →
      (∀ j, j < k → Tmdb.isServerError5xx (trace j) = true) →
      trace k = .resp s → Tmdb.is5xx s = false →
      Tmdb.executeWithRetry trace = (.ok s, k + 1, Tmdb.RETRY_DELAYS.take k)) ∧
    ((∀ j, j ≤ 3 → Tmdb.isServerError5xx (trace j) = true) →
      Tmdb.executeWithRetry trace
        = (.error .retryLimitExceeded, 4, [5 * 60, 15 * 60, 30 * 60])) ∧
    (∀ os, trace 0 = .err os → (os.map Tmdb.is5xx).getD false = false →
      Tmdb.executeWithRetry trace = (.error (.http os), 1, [])) ∧
    (∀ s, trace 0 = .resp s → Tmdb.is5xx s = false →
      Tmdb.isSuccess2xx s = false →
      Tmdb.fetchJson trace = (.error (.unexpectedStatus s), 1, [])) := by
  refine ⟨?_, ?_, ?_, ?_⟩
  · intro k s hk hserver htrace hs
    exact Tmdb.executeWithRetryGo_partial_success trace k s Tmdb.RETRY_DELAYS 0
      (by simpa [Tmdb.RETRY_DELAYS] using hk)
      (fun j hj1 hj2 => hserver j (by omega)) (by simpa using htrace) hs
  · intro hserver
    exact Tmdb.executeWithRetryGo_exhausted trace Tmdb.RETRY_DELAYS 0
      (fun j hj1 hj2 => hserver j (by simpa [Tmdb.RETRY_DELAYS] using hj2))
  · intro os htrace hos
    exact Tmdb.executeWithRetryGo_transport_error trace Tmdb.RETRY_DELAYS 0 os
      htrace hos
  · intro s htrace h5 h2
    have hewr : Tmdb.executeWithRetry trace = (.ok s, 1, []) := by
      have := Tmdb.executeWithRetryGo_partial_success trace 0 s
        Tmdb.RETRY_DELAYS 0 (by simp [Tmdb.RETRY_DELAYS])
        (fun j hj1 hj2 => absurd hj2 (by omega)) (by simpa using htrace) h5
      simpa using this
    rw [Tmdb.fetchJson, hewr]
    simp [h2]

/-! ## Dispatcher retry loop (C6 machinery) -/

namespace Telegram

theorem retryDelayFor_eq {delays : List Nat} (hne : delays ≠ [])
    (attempt : Nat) :
    retryDelayFor delays attempt
      = (delays.get? attempt).getD (delays.getLast hne) := by
  rw [retryDelayFor]
  cases hget : delays.get? attempt with
  | some v => simp [hget]
  | none => simp [hget, List.getLast?_eq_getLast _ hne]

theorem sendSingleGo_all5xx (delays : List Nat) (maxRetries : Nat)
    (trace : Nat → TgResp) (base : Nat)
    (h5 : ∀ i, Tmdb.is5xx (trace i).status = true) :
    ∀ n retries, maxRetries - retries = n → retries ≤ maxRetries →
    sendSingleGo delays maxRetries trace base retries
      = (.error (.api (trace (base + maxRetries)).status
            (trace (base + maxRetries)).retryAfter),
          n + 1,
          (List.range' retries n).map (retryDelayFor delays)) := by
  intro n
  induction n with
  | zero =>
    intro retries hn hle
    have hretries : retries = maxRetries := by omega
    subst hretries
    have h5r := h5 (base + retries)
    have hge : 500 ≤ (trace (base + retries)).status := by
      have := h5r
      rw [Tmdb.is5xx] at this
      simp only [Bool.and_eq_true, decide_eq_true_eq] at this
      exact this.1
    have hsucc : Tmdb.isSuccess2xx (trace (base + retries)).status = false := by
      rw [Tmdb.isSuccess2xx]
      simp only [Bool.and_eq_false_iff, decide_eq_false_iff_not]
      right
      omega
    rw [sendSingleGo]
    simp [hsucc, Nat.lt_irrefl]
  | succ n ih =>
    intro retries hn hle
    have hlt : retries < maxRetries := by omega
    have h5r := h5 (base + retries)
    have hge : 500 ≤ (trace (base + retries)).status := by
      have := h5r
      rw [Tmdb.is5xx] at this
      simp only [Bool.and_eq_true, decide_eq_true_eq] at this
      exact this.1
    have hsucc : Tmdb.isSuccess2xx (trace (base + retries)).status = false := by
      rw [Tmdb.isSuccess2xx]
      simp only [Bool.and_eq_false_iff, decide_eq_false_iff_not]
      right
      omega
    have h429 : ((trace (base + retries)).status = 429) = False := by
      simp only [eq_iff_iff, iff_false]
      omega
    have hrec := ih (retries + 1) (by omega) (by omega)
    rw [sendSingleGo]
    simp only [hsucc, Bool.false_eq_true, if_false, h429, decide_False,
      Bool.false_and, h5r, decide_eq_true_eq, hlt, decide_True,
      Bool.true_and, if_true, if_false, hrec, List.range'_succ,
      List.map_cons]

end Telegram

/-- **C6.** If the transport answers every attempt with a 5xx status, then
for a batch whose first message is non-empty after trimming and whose chat
is allow-listed, `send_batch` makes exactly `max_retries + 1` transport
calls — all for that first message, the remaining messages are never sent —
sleeps between attempts the configured delay schedule indexed by the attempt
number and clamped to its last entry once the attempt number passes the end
of the schedule, and returns the terminal `Api` error of the final
attempt. -/
theorem c6_all_server_errors_exhaust_retries (delays : List Nat)
    (maxRetries : Nat) (chatIds : List Int) (chatId : Int)
    (m : List Char) (rest : List (List Char)) (trace : Nat → Telegram.TgResp)
    (hchat : chatId ∈ chatIds) (htrim : (trim m).isEmpty = false)
    (hdelays : delays ≠ [])
    (h5 : ∀ i, Tmdb.is5xx (trace i).status = true) :
    Telegram.sendBatch delays maxRetries chatIds chatId (m :: rest) trace
      = (.error (.api (trace maxRetries).status (trace maxRetries).retryAfter),
          maxRetries + 1,
          (List.range maxRetries).map
            (fun i => (delays.get? i).getD (delays.getLast hdelays))) := by
  have hsingle := Telegram.sendSingleGo_all5xx delays maxRetries trace 0 h5
    maxRetries 0 (by omega) (by omega)
  rw [Telegram.sendBatch, if_neg (by simpa using hchat),
    Telegram.sendBatchGo, if_neg (by simpa using htrim),
    Telegram.sendSingle, hsingle]
  have heq : (List.range' 0 maxRetries).map (Telegram.retryDelayFor delays)
      = (List.range' 0 maxRetries).map
          (fun i => (delays.get? i).getD (delays.getLast hdelays)) :=
    List.map_congr_left (fun i _ => Telegram.retryDelayFor_eq hdelays i)
  simp only [Nat.zero_add, List.range_eq_range', heq]

/-- Witness for C6: schedule `[5, 15, 30]` but `max_retries = 5`, so the last
two sleeps clamp to `30`; chat `99` allow-listed, one non-empty message
followed by another that is never attempted. -/
theorem c6_all_server_errors_exhaust_retries_witness :
    Telegram.sendBatch [5, 15, 30] 5 [99] 99
        ["hi".toList, "later".toList]
        (fun _ => { status := 500, retryAfter := none })
      = (.error (.api 500 none), 6, [5, 15, 30, 30, 30]) := by
  have h := c6_all_server_errors_exhaust_retries [5, 15, 30] 5 [99] 99
    "hi".toList ["later".toList]
    (fun _ => { status := 500, retryAfter := none })
    (by decide) (by decide) (by decide) (fun i => rfl)
  simpa using h

/-! ## Formatter ordering (C7 machinery) -/

namespace Formatter

theorem natCmp_eq_lt_iff {a b : Nat} : natCmp a b = .lt ↔ a < b := by
  unfold natCmp
  split_ifs <;> simp <;> omega

theorem natCmp_eq_eq_iff {a b : Nat} : natCmp a b = .eq ↔ a = b := by
  unfold natCmp
  split_ifs <;> simp <;> omega

theorem natCmp_swap (a b : Nat) : (natCmp a b).swap = natCmp b a := by
  unfold natCmp
  split_ifs <;> first | rfl | omega

theorem boolCmp_eq_lt_iff {a b : Bool} :
    boolCmp a b = .lt ↔ a = false ∧ b = true := by
  cases a <;> cases b <;> decide

theorem boolCmp_eq_eq_iff {a b : Bool} : boolCmp a b = .eq ↔ a = b := by
  cases a <;> cases b <;> decide

theorem boolCmp_swap (a b : Bool) : (boolCmp a b).swap = boolCmp b a := by
  cases a <;> cases b <;> decide

theorem strCmp_eq_eq_iff : ∀ {s t : List Char}, strCmp s t = .eq ↔ s = t
  | [], [] => by simp [strCmp]
  | [], _ :: _ => by simp [strCmp]
  | _ :: _, [] => by simp [strCmp]
  | a :: as', b :: bs => by
    rw [strCmp]
    cases hab : natCmp a.toNat b.toNat with
    | eq =>
      have hchar : a = b :=
        Char.eq_of_val_eq (UInt32.ext (natCmp_eq_eq_iff.mp hab))
      have hiff := @strCmp_eq_eq_iff as' bs
      simp [hiff, hchar]
    | lt =>
      have : a ≠ b := by
        intro h
        rw [h, natCmp_eq_eq_iff.mpr rfl] at hab
        cases hab
      simp [this]
    | gt =>
      have : a ≠ b := by
        intro h
        rw [h, natCmp_eq_eq_iff.mpr rfl] at hab
        cases hab
      simp [this]

theorem strCmp_swap : ∀ (s t : List Char), (strCmp s t).swap = strCmp t s
  | [], [] => rfl
  | [], _ :: _ => rfl
  | _ :: _, [] => rfl
  | a :: as', b :: bs => by
    rw [strCmp, strCmp]
    cases hab : natCmp a.toNat b.toNat with
    | eq =>
      rw [show natCmp b.toNat a.toNat = .eq from
        natCmp_eq_eq_iff.mpr (natCmp_eq_eq_iff.mp hab).symm]
      exact strCmp_swap as' bs
    | lt =>
      rw [show natCmp b.toNat a.toNat = .gt from by
        rw [← natCmp_swap, hab]; rfl]
      rfl
    | gt =>
      rw [show natCmp b.toNat a.toNat = .lt from by
        rw [← natCmp_swap, hab]; rfl]
      rfl

theorem strCmp_lt_trans :
    ∀ {s t u : List Char}, strCmp s t = .lt → strCmp t u = .lt →
      strCmp s u = .lt
  | [], [], _, h1, _ => by cases h1
  | [], _ :: _, [], _, h2 => by cases h2
  | [], _ :: _, _ :: _, _, _ => rfl
  | _ :: _, [], _, h1, _ => by cases h1
  | _ :: _, _ :: _, [], _, h2 => by cases h2
  | a :: as', b :: bs, c :: cs, h1, h2 => by
    rw [strCmp] at h1 h2 ⊢
    cases hab : natCmp a.toNat b.toNat with
    | gt => rw [hab] at h1; cases h1
    | lt =>
      have h1' : a.toNat < b.toNat := natCmp_eq_lt_iff.mp hab
      cases hbc : natCmp b.toNat c.toNat with
      | gt => rw [hbc] at h2; cases h2
      | lt =>
        have h2' : b.toNat < c.toNat := natCmp_eq_lt_iff.mp hbc
        rw [natCmp_eq_lt_iff.mpr (by omega : a.toNat < c.toNat)]
      | eq =>
        have h2' : b.toNat = c.toNat := natCmp_eq_eq_iff.mp hbc
        rw [natCmp_eq_lt_iff.mpr (by omega : a.toNat < c.toNat)]
    | eq =>
      have h1' : a.toNat = b.toNat := natCmp_eq_eq_iff.mp hab
      rw [hab] at h1
      cases hbc : natCmp b.toNat c.toNat with
      | gt => rw [hbc] at h2; cases h2
      | lt =>
        have h2' : b.toNat < c.toNat := natCmp_eq_lt_iff.mp hbc
        rw [natCmp_eq_lt_iff.mpr (by omega : a.toNat < c.toNat)]
      | eq =>
        have h2' : b.toNat = c.toNat := natCmp_eq_eq_iff.mp hbc
        rw [hbc] at h2
        rw [natCmp_eq_eq_iff.mpr (by omega : a.toNat = c.toNat)]
        exact strCmp_lt_trans h1 h2

theorem strCmp_ne_gt_iff {s t : List Char} :
    strCmp s t ≠ .gt ↔ strCmp s t = .lt ∨ s = t := by
  cases h : strCmp s t with
  | lt => simp
  | eq => simpa using (strCmp_eq_eq_iff.mp h)
  | gt =>
    have hiff := @strCmp_eq_eq_iff s t
    simp [← hiff, h]

theorem chatReleaseCmp_swap (a b : ChatRelease) :
    (chatReleaseCmp a b).swap = chatReleaseCmp b a := by
  rw [chatReleaseCmp, chatReleaseCmp]
  cases hp : boolCmp b.priority a.priority with
  | eq =>
    rw [show boolCmp a.priority b.priority = .eq from
      boolCmp_eq_eq_iff.mpr (boolCmp_eq_eq_iff.mp hp).symm]
    cases ht : natCmp a.release_time b.release_time with
    | eq =>
      rw [show natCmp b.release_time a.release_time = .eq from
        natCmp_eq_eq_iff.mpr (natCmp_eq_eq_iff.mp ht).symm]
      exact strCmp_swap a.title b.title
    | lt =>
      rw [show natCmp b.release_time a.release_time = .gt from by
        rw [← natCmp_swap, ht]; rfl]
      rfl
    | gt =>
      rw [show natCmp b.release_time a.release_time = .lt from by
        rw [← natCmp_swap, ht]; rfl]
      rfl
  | lt =>
    rw [show boolCmp a.priority b.priority = .gt from by
      rw [← boolCmp_swap, hp]; rfl]
    rfl
  | gt =>
    rw [show boolCmp a.priority b.priority = .lt from by
      rw [← boolCmp_swap, hp]; rfl]
    rfl

theorem chatReleaseLe_iff {a b : ChatRelease} :
    chatReleaseLe a b ↔
      (b.priority = false ∧ a.priority = true) ∨
      (b.priority = a.priority ∧
        (a.release_time < b.release_time ∨
          (a.release_time = b.release_time ∧
            strCmp a.title b.title ≠ .gt))) := by
  rw [chatReleaseLe, chatReleaseCmp]
  cases hp : boolCmp b.priority a.priority with
  | lt =>
    obtain ⟨hb, ha⟩ := boolCmp_eq_lt_iff.mp hp
    simp [hb, ha]
  | gt =>
    have hne : ¬b.priority = a.priority := by
      intro h
      rw [boolCmp_eq_eq_iff.mpr h] at hp
      cases hp
    rcases hb : b.priority <;> rcases ha : a.priority <;>
      simp_all [boolCmp]
  | eq =>
    have hpe : b.priority = a.priority := boolCmp_eq_eq_iff.mp hp
    cases ht : natCmp a.release_time b.release_time with
    | lt =>
      have := natCmp_eq_lt_iff.mp ht
      simp [hpe, this]
    | gt =>
      have hgt : b.release_time < a.release_time := by
        have hsw := natCmp_swap a.release_time b.release_time
        rw [ht] at hsw
        exact natCmp_eq_lt_iff.mp hsw.symm
      constructor
      · intro h
        exact absurd rfl h
      · intro h
        rcases h with ⟨hb, ha⟩ | ⟨_, ht' | ⟨hte, _⟩⟩
        · rw [hpe, ha] at hb
          cases hb
        · omega
        · omega
    | eq =>
      have hte : a.release_time = b.release_time := natCmp_eq_eq_iff.mp ht
      simp [hpe, hte]

theorem chatReleaseLe_total (a b : ChatRelease) :
    chatReleaseLe a b ∨ chatReleaseLe b a := by
  by_cases h : chatReleaseCmp a b = .gt
  · right
    rw [chatReleaseLe, ← chatReleaseCmp_swap a b, h]
    simp [Ordering.swap]
  · left
    exact h

instance : IsTotal ChatRelease chatReleaseLe := ⟨chatReleaseLe_total⟩

theorem chatReleaseLe_trans {a b c : ChatRelease}
    (hab : chatReleaseLe a b) (hbc : chatReleaseLe b c) :
    chatReleaseLe a c := by
  rw [chatReleaseLe_iff] at hab hbc ⊢
  rcases hab with ⟨hb, ha⟩ | ⟨hpe1, hrest1⟩
  · rcases hbc with ⟨hc, hb'⟩ | ⟨hpe2, _⟩
    · rw [hb] at hb'
      cases hb'
    · left
      rw [hpe2]
      exact ⟨hb, ha⟩
  · rcases hbc with ⟨hc, hb'⟩ | ⟨hpe2, hrest2⟩
    · left
      rw [← hpe1]
      exact ⟨hc, hb'⟩
    · right
      refine ⟨by rw [hpe2, hpe1], ?_⟩
      rcases hrest1 with ht1 | ⟨hte1, hs1⟩
      · rcases hrest2 with ht2 | ⟨hte2, _⟩
        · left
          omega
        · left
          omega
      · rcases hrest2 with ht2 | ⟨hte2, hs2⟩
        · left
          omega
        · right
          refine ⟨by omega, ?_⟩
          rcases strCmp_ne_gt_iff.mp hs1 with hlt1 | heq1
          · rcases strCmp_ne_gt_iff.mp hs2 with hlt2 | heq2
            · exact strCmp_ne_gt_iff.mpr (Or.inl (strCmp_lt_trans hlt1 hlt2))
            · rw [← heq2]
              exact strCmp_ne_gt_iff.mpr (Or.inl hlt1)
          · rw [heq1]
            exact hs2

instance : IsTrans ChatRelease chatReleaseLe := ⟨fun _ _ _ => chatReleaseLe_trans⟩

theorem groupReleasesByChat_foldl_sorted
    (releases : List DigitalRelease) (now : Nat) :
    ∀ (chats : List ChatConfig) (acc : List ChatPayload),
      (∀ p ∈ acc, p.releases.Sorted chatReleaseLe) →
      ∀ p ∈ chats.foldl
        (fun payloads chat =>
          let chatReleases :=
            (releases.filter (fun r => chat.matchesLocale r.locale)).map
              (fun r =>
                { title := r.title
                  release_time := r.release_time
                  display_date := r.display_date
                  platforms := r.platforms
                  priority := isPriority r.release_time now : ChatRelease })
          if chatReleases.isEmpty then payloads
          else
            payloads ++
              [{ chat_id := chat.chat_id
                 releases := chatReleases.insertionSort chatReleaseLe }])
        acc,
      p.releases.Sorted chatReleaseLe := by
  intro chats
  induction chats with
  | nil => intro acc hacc p hp; exact hacc p hp
  | cons chat rest ih =>
    intro acc hacc p hp
    rw [List.foldl_cons] at hp
    refine ih _ ?_ p hp
    intro q hq
    by_cases hempty :
        ((releases.filter (fun r => chat.matchesLocale r.locale)).map
          (fun r =>
            { title := r.title
              release_time := r.release_time
              display_date := r.display_date
              platforms := r.platforms
              priority := isPriority r.release_time now : ChatRelease })).isEmpty = true
    · rw [if_pos hempty] at hq
      exact hacc q hq
    · rw [if_neg hempty] at hq
      rcases List.mem_append.mp hq with hq | hq
      · exact hacc q hq
      · rcases List.mem_singleton.mp hq with rfl
        exact List.sorted_insertionSort chatReleaseLe _

end Formatter

/-- **C7 counterexample.** Two priority releases for one chat where the
title order disagrees with the release-time order: the code sorts `B`
(release time 999980) before `A` (999990), so the output is *not* ordered by
priority-then-title as the claim states — release time is the second key,
not the title. -/
theorem c7_counterexample_title_not_secondary :
    ¬ (∀ p ∈ Formatter.groupReleasesByChat
        [⟨1, "A".toList, 999990, "d".toList, "ru".toList, []⟩,
         ⟨2, "B".toList, 999980, "d".toList, "ru".toList, []⟩]
        ⟨[⟨1, ["ru".toList]⟩]⟩ 1000000,
      p.releases.Sorted Formatter.claimedLe) := by
  decide

/-- **C7 (amended).** Within each per-chat payload of
`group_releases_by_chat`, releases are ordered by the priority flag first,
then by *release time* ascending, and only then by lexical title as the
third key (`chatReleaseLe` is exactly the comparator of the source's
`sort_by`); the output of the pure function is identical for identical
input. -/
theorem c7_payloads_sorted_by_priority_time_title
    (releases : List Formatter.DigitalRelease) (config : TelegramConfig)
    (now : Nat) (p : Formatter.ChatPayload)
    (hp : p ∈ Formatter.groupReleasesByChat releases config now) :
    p.releases.Sorted Formatter.chatReleaseLe := by
  rw [Formatter.groupReleasesByChat] at hp
  exact Formatter.groupReleasesByChat_foldl_sorted releases now config.chats []
    (by intro q hq; cases hq) p hp

/-- Witness for C7 (amended) at a concrete input: one matching release
produces one payload whose singleton list is sorted. -/
theorem c7_payloads_sorted_by_priority_time_title_witness :
    (Formatter.ChatPayload.releases
      ⟨1, [⟨"A".toList, 999990, "d".toList, [], true⟩]⟩).Sorted
      Formatter.chatReleaseLe :=
  c7_payloads_sorted_by_priority_time_title
    [⟨1, "A".toList, 999990, "d".toList, "ru".toList, []⟩]
    ⟨[⟨1, ["ru".toList]⟩]⟩ 1000000
    ⟨1, [⟨"A".toList, 999990, "d".toList, [], true⟩]⟩ (by decide)

/-- **C10.** A stub item that passes the history check and the missing-date
check is not dropped when the per-item release-dates lookup yields no
digital date: `unwrap_or` silently substitutes the stub's primary release
date, and the item (when it passes the relevance filter, the only remaining
gate) is emitted with `digital_release_date` equal to that primary date;
in fact the lookup returning `None` is indistinguishable from the lookup
returning the primary date itself. -/
theorem c10_missing_digital_date_falls_back_to_primary
    (history : List Nat) (movie : Tmdb.DiscoverMovie)
    (details : Tmdb.MovieDetails) (releaseDate : Nat)
    (hhist : movie.id ∉ history)
    (hdate : movie.release_date = some releaseDate)
    (hrel : Tmdb.isRelevantRelease details = true) :
    Tmdb.processMovie history movie details none
      = some
        { id := movie.id
          title := movie.title
          release_date := releaseDate
          digital_release_date := releaseDate
          original_language := movie.original_language
          popularity := movie.popularity
          homepage := details.homepage
          watch_providers := details.watch_providers } ∧
    Tmdb.processMovie history movie details none
      = Tmdb.processMovie history movie details (some releaseDate) := by
  rw [Tmdb.processMovie, Tmdb.processMovie]
  simp [hhist, hdate, hrel, Option.getD]

/-- Witness for C10: a relevant stub with id `42`, primary date `7`, empty
history and no digital date from the lookup. -/
theorem c10_missing_digital_date_falls_back_to_primary_witness :
    Tmdb.processMovie []
        ⟨42, "T".toList, some 7, "en".toList, 1⟩
        ⟨none, [], ["US".toList], 5, 9, ["Drama".toList], some 95⟩ none
      = some ⟨42, "T".toList, 7, 7, "en".toList, 1, none, []⟩ ∧
    Tmdb.processMovie []
        ⟨42, "T".toList, some 7, "en".toList, 1⟩
        ⟨none, [], ["US".toList], 5, 9, ["Drama".toList], some 95⟩ none
      = Tmdb.processMovie []
          ⟨42, "T".toList, some 7, "en".toList, 1⟩
          ⟨none, [], ["US".toList], 5, 9, ["Drama".toList], some 95⟩ (some 7) :=
  c10_missing_digital_date_falls_back_to_primary []
    ⟨42, "T".toList, some 7, "en".toList, 1⟩
    ⟨none, [], ["US".toList], 5, 9, ["Drama".toList], some 95⟩ 7
    (by decide) rfl (by decide)

/-! ## Orchestrator run (C1, C2 machinery) -/

namespace Orchestrator

theorem filterNewReleases_fst_not_mem (ids : List Nat)
    (rels : List Tmdb.MovieRelease) :
    ∀ r ∈ (filterNewReleases ids rels).1, r.id ∉ ids := by
  have hgen : ∀ (l : List Tmdb.MovieRelease)
      (acc : List Tmdb.MovieRelease × Nat),
      (∀ r ∈ acc.1, r.id ∉ ids) →
      ∀ r ∈ (l.foldl
        (fun (acc : List Tmdb.MovieRelease × Nat) release =>
          if release.id ∈ ids then (acc.1, acc.2 + 1)
          else (acc.1 ++ [release], acc.2)) acc).1,
        r.id ∉ ids := by
    intro l
    induction l with
    | nil => intro acc hacc r hr; exact hacc r hr
    | cons release rest ih =>
      intro acc hacc r hr
      rw [List.foldl_cons] at hr
      by_cases hmem : release.id ∈ ids
      · rw [if_pos hmem] at hr
        exact ih (acc.1, acc.2 + 1) (fun q hq => hacc q hq) r hr
      · rw [if_neg hmem] at hr
        refine ih _ ?_ r hr
        intro q hq
        rcases List.mem_append.mp hq with hq | hq
        · exact hacc q hq
        · rcases List.mem_singleton.mp hq with rfl
          exact hmem
  intro r hr
  exact hgen rels ([], 0) (by intro q hq; cases hq) r hr

theorem append_snd_pos {input s : List Nat} (hne : input ≠ [])
    (h : ∀ x ∈ input, x ∉ s) : 0 < (SentHistory.append input s).2 := by
  cases input with
  | nil => cases hne rfl
  | cons x xs =>
    have hx : x ∉ s := h x (List.mem_cons_self x xs)
    simp only [SentHistory.append, if_neg hx]
    omega

end Orchestrator

/-- **C1.** For every run whose fetch succeeded: an item id enters the
ledger exactly when the run's dispatch stage succeeded in full and the id
belongs to the filtered new releases — if any `send_messages` call fails,
`run` returns a `Dispatch` error and the in-memory ledger is exactly what
`restore` left (`postRestoreIds`), with no `persist`-stage local write and
no upload; if every call succeeds, `run` returns a `RunSummary` and exactly
the ids of the filtered new releases are appended. -/
theorem c1_ledger_advances_iff_dispatch_succeeds (h0 : List Nat)
    (download : Except Unit (Option (List Char)))
    (localFile : Option (List Char)) (uploadOk : Bool)
    (rels : List Tmdb.MovieRelease) (dispatchOk : Int → Bool)
    (config : TelegramConfig) (now : Nat) :
    (∀ x, x ∈ (Orchestrator.run h0 download localFile uploadOk (.ok rels)
        dispatchOk config now).ids ↔
      x ∈ Orchestrator.postRestoreIds h0 download localFile ∨
        (Orchestrator.allDispatchOk config now
            (Orchestrator.filterNewReleases
              (Orchestrator.postRestoreIds h0 download localFile) rels).1
            dispatchOk = true ∧
          x ∈ ((Orchestrator.filterNewReleases
              (Orchestrator.postRestoreIds h0 download localFile) rels).1.map
            (fun r => r.id)))) ∧
    (Orchestrator.allDispatchOk config now
        (Orchestrator.filterNewReleases
          (Orchestrator.postRestoreIds h0 download localFile) rels).1
        dispatchOk = false →
      (Orchestrator.run h0 download localFile uploadOk (.ok rels)
          dispatchOk config now).result = .error .dispatch ∧
      (Orchestrator.run h0 download localFile uploadOk (.ok rels)
          dispatchOk config now).ids
        = Orchestrator.postRestoreIds h0 download localFile ∧
      (Orchestrator.run h0 download localFile uploadOk (.ok rels)
          dispatchOk config now).persistSavedLocal = none ∧
      (Orchestrator.run h0 download localFile uploadOk (.ok rels)
          dispatchOk config now).uploads = []) ∧
    (Orchestrator.allDispatchOk config now
        (Orchestrator.filterNewReleases
          (Orchestrator.postRestoreIds h0 download localFile) rels).1
        dispatchOk = true →
      ∃ s, (Orchestrator.run h0 download localFile uploadOk (.ok rels)
          dispatchOk config now).result = .ok s) := by
  set B := Orchestrator.postRestoreIds h0 download localFile with hB
  set U := (Orchestrator.filterNewReleases B rels).1 with hU
  by_cases hemp : U.isEmpty = true
  · have hUnil : U = [] := List.isEmpty_iff.mp hemp
    have hok : Orchestrator.allDispatchOk config now U dispatchOk
        = ((Formatter.buildEmptyMessages config).map
            (fun m => m.chat_id)).all dispatchOk := by
      rw [Orchestrator.allDispatchOk, Orchestrator.dispatchTargets,
        if_pos hemp]
    by_cases hall : ((Formatter.buildEmptyMessages config).map
        (fun m => m.chat_id)).all dispatchOk = true
    · have hids : (Orchestrator.run h0 download localFile uploadOk (.ok rels)
          dispatchOk config now).ids = B := by
        rw [Orchestrator.run]
        simp only [← hB, ← hU, hemp, if_true, hall]
      have hres : (Orchestrator.run h0 download localFile uploadOk
          (.ok rels) dispatchOk config now).result
          = .ok ⟨(Orchestrator.filterNewReleases B rels).2, 0,
              (Orchestrator.filterNewReleases B rels).2,
              (Formatter.buildEmptyMessages config).length, 0⟩ := by
        rw [Orchestrator.run]
        simp only [← hB, ← hU, hemp, if_true, hall]
      refine ⟨?_, ?_, fun _ => ⟨_, hres⟩⟩
      · intro x
        rw [hids]
        simp [hUnil]
      · intro hfalse
        rw [hok, hall] at hfalse
        cases hfalse
    · have hids : (Orchestrator.run h0 download localFile uploadOk (.ok rels)
          dispatchOk config now).ids = B := by
        rw [Orchestrator.run]
        simp only [← hB, ← hU, hemp, if_true, hall, Bool.false_eq_true,
          if_false]
      have hres : (Orchestrator.run h0 download localFile uploadOk (.ok rels)
          dispatchOk config now).result = .error .dispatch := by
        rw [Orchestrator.run]
        simp only [← hB, ← hU, hemp, if_true, hall, Bool.false_eq_true,
          if_false]
      have hpsl : (Orchestrator.run h0 download localFile uploadOk (.ok rels)
          dispatchOk config now).persistSavedLocal = none := by
        rw [Orchestrator.run]
        simp only [← hB, ← hU, hemp, if_true, hall, Bool.false_eq_true,
          if_false]
      have hupl : (Orchestrator.run h0 download localFile uploadOk (.ok rels)
          dispatchOk config now).uploads = [] := by
        rw [Orchestrator.run]
        simp only [← hB, ← hU, hemp, if_true, hall, Bool.false_eq_true,
          if_false]
      refine ⟨?_, fun _ => ⟨hres, hids, hpsl, hupl⟩, ?_⟩
      · intro x
        rw [hids]
        simp [hUnil]
      · intro htrue
        rw [hok] at htrue
        rw [htrue] at hall
        cases hall rfl
  · have hok : Orchestrator.allDispatchOk config now U dispatchOk
        = ((Orchestrator.groupByChatId
            (Formatter.buildMessages (Orchestrator.convertReleases U)
              config now)).map Prod.fst).all dispatchOk := by
      rw [Orchestrator.allDispatchOk, Orchestrator.dispatchTargets,
        if_neg hemp]
    by_cases hall : ((Orchestrator.groupByChatId
        (Formatter.buildMessages (Orchestrator.convertReleases U)
          config now)).map Prod.fst).all dispatchOk = true
    · have hids : (Orchestrator.run h0 download localFile uploadOk (.ok rels)
          dispatchOk config now).ids
          = (SentHistory.append (U.map (fun r => r.id)) B).1 := by
        rw [Orchestrator.run]
        simp only [← hB, ← hU, hemp, Bool.false_eq_true, if_false, hall,
          if_true]
      have hres : (Orchestrator.run h0 download localFile uploadOk
          (.ok rels) dispatchOk config now).result
          = .ok ⟨U.length + (Orchestrator.filterNewReleases B rels).2,
              U.length, (Orchestrator.filterNewReleases B rels).2,
              (Formatter.buildMessages (Orchestrator.convertReleases U)
                config now).length,
              (SentHistory.append (U.map (fun r => r.id)) B).2⟩ := by
        rw [Orchestrator.run]
        simp only [← hB, ← hU, hemp, Bool.false_eq_true, if_false, hall,
          if_true]
      refine ⟨?_, ?_, fun _ => ⟨_, hres⟩⟩
      · intro x
        rw [hids, hok]
        simp only [hall, true_and]
        have hmem := SentHistory.mem_append_fst (U.map (fun r => r.id)) B x
        tauto
      · intro hfalse
        rw [hok, hall] at hfalse
        cases hfalse
    · have hids : (Orchestrator.run h0 download localFile uploadOk (.ok rels)
          dispatchOk config now).ids = B := by
        rw [Orchestrator.run]
        simp only [← hB, ← hU, hemp, Bool.false_eq_true, if_false, hall]
      have hres : (Orchestrator.run h0 download localFile uploadOk (.ok rels)
          dispatchOk config now).result = .error .dispatch := by
        rw [Orchestrator.run]
        simp only [← hB, ← hU, hemp, Bool.false_eq_true, if_false, hall]
      have hpsl : (Orchestrator.run h0 download localFile uploadOk (.ok rels)
          dispatchOk config now).persistSavedLocal = none := by
        rw [Orchestrator.run]
        simp only [← hB, ← hU, hemp, Bool.false_eq_true, if_false, hall]
      have hupl : (Orchestrator.run h0 download localFile uploadOk (.ok rels)
          dispatchOk config now).uploads = [] := by
        rw [Orchestrator.run]
        simp only [← hB, ← hU, hemp, Bool.false_eq_true, if_false, hall]
      refine ⟨?_, fun _ => ⟨hres, hids, hpsl, hupl⟩, ?_⟩
      · intro x
        rw [hids, hok]
        simp only [Bool.eq_false_iff] at hall
        simp [hall]
      · intro htrue
        rw [hok] at htrue
        rw [htrue] at hall
        cases hall rfl

/-- **C2 counterexample.** A run in which every dispatch succeeds but the
artifact upload inside `persist` fails (`uploadOk = false`): ledger
restored to `{1}` from the local cache, fetch returns a duplicate (id 1)
and a new release (id 2), the one message is delivered — and `run` still
returns a successful `RunSummary` (and nothing was uploaded), where the
claim required an error to propagate.  The source logs the persist failure
with «продолжаю без ошибки» ("continuing without an error") and drops it. -/
theorem c2_counterexample_persist_error_not_propagated :
    (Orchestrator.run [] (.ok none) (some "1".toList) false
        (.ok [⟨1, "Dup".toList, 10, 10, "ru".toList, 1, none, []⟩,
              ⟨2, "New".toList, 10, 10, "ru".toList, 1, none, []⟩])
        (fun _ => true) ⟨[⟨99, ["ru".toList]⟩]⟩ 1000000).result
      = .ok ⟨2, 1, 1, 1, 1⟩ ∧
    (Orchestrator.run [] (.ok none) (some "1".toList) false
        (.ok [⟨1, "Dup".toList, 10, 10, "ru".toList, 1, none, []⟩,
              ⟨2, "New".toList, 10, 10, "ru".toList, 1, none, []⟩])
        (fun _ => true) ⟨[⟨99, ["ru".toList]⟩]⟩ 1000000).uploads
      = [] :=
  ⟨rfl, rfl⟩

/-- **C2 (amended).** When every message of a run dispatches successfully
but the remote upload inside `SentHistory::persist` fails, the failure does
*not* propagate: `Orchestrator::run` logs it and still returns a successful
`RunSummary`; the new ledger reached the local cache file but nothing was
uploaded to the Ledger Store. -/
theorem c2_persist_failure_is_swallowed (h0 : List Nat)
    (download : Except Unit (Option (List Char)))
    (localFile : Option (List Char)) (rels : List Tmdb.MovieRelease)
    (dispatchOk : Int → Bool) (config : TelegramConfig) (now : Nat)
    (hok : Orchestrator.allDispatchOk config now
      (Orchestrator.filterNewReleases
        (Orchestrator.postRestoreIds h0 download localFile) rels).1
      dispatchOk = true)
    (hne : (Orchestrator.filterNewReleases
      (Orchestrator.postRestoreIds h0 download localFile) rels).1 ≠ []) :
    (∃ s, (Orchestrator.run h0 download localFile false (.ok rels)
        dispatchOk config now).result = .ok s) ∧
    (Orchestrator.run h0 download localFile false (.ok rels)
        dispatchOk config now).uploads = [] ∧
    (Orchestrator.run h0 download localFile false (.ok rels)
        dispatchOk config now).persistSavedLocal
      = some (SentHistory.renderFile
          (Orchestrator.run h0 download localFile false (.ok rels)
            dispatchOk config now).ids) := by
  set B := Orchestrator.postRestoreIds h0 download localFile with hB
  set U := (Orchestrator.filterNewReleases B rels).1 with hU
  have hemp : U.isEmpty = false := List.isEmpty_eq_false.mpr hne
  have hall : ((Orchestrator.groupByChatId
      (Formatter.buildMessages (Orchestrator.convertReleases U)
        config now)).map Prod.fst).all dispatchOk = true := by
    rw [Orchestrator.allDispatchOk, Orchestrator.dispatchTargets,
      if_neg (by simp [hemp])] at hok
    exact hok
  have hpos : 0 < (SentHistory.append (U.map (fun r => r.id)) B).2 := by
    refine Orchestrator.append_snd_pos ?_ ?_
    · simpa using hne
    · intro x hx
      obtain ⟨r, hr, rfl⟩ := List.mem_map.mp hx
      exact Orchestrator.filterNewReleases_fst_not_mem B rels r hr
  have hids : (Orchestrator.run h0 download localFile false (.ok rels)
      dispatchOk config now).ids
      = (SentHistory.append (U.map (fun r => r.id)) B).1 := by
    rw [Orchestrator.run]
    simp only [← hB, ← hU, hemp, Bool.false_eq_true, if_false, hall, if_true]
  have hres : (Orchestrator.run h0 download localFile false (.ok rels)
      dispatchOk config now).result
      = .ok ⟨U.length + (Orchestrator.filterNewReleases B rels).2,
          U.length, (Orchestrator.filterNewReleases B rels).2,
          (Formatter.buildMessages (Orchestrator.convertReleases U)
            config now).length,
          (SentHistory.append (U.map (fun r => r.id)) B).2⟩ := by
    rw [Orchestrator.run]
    simp only [← hB, ← hU, hemp, Bool.false_eq_true, if_false, hall, if_true]
  have hupl : (Orchestrator.run h0 download localFile false (.ok rels)
      dispatchOk config now).uploads = [] := by
    rw [Orchestrator.run]
    simp only [← hB, ← hU, hemp, Bool.false_eq_true, if_false, hall, if_true,
      Bool.and_false]
  have hpsl : (Orchestrator.run h0 download localFile false (.ok rels)
      dispatchOk config now).persistSavedLocal
      = some (SentHistory.renderFile
          (SentHistory.append (U.map (fun r => r.id)) B).1) := by
    rw [Orchestrator.run]
    simp only [← hB, ← hU, hemp, Bool.false_eq_true, if_false, hall, if_true,
      if_pos hpos]
  exact ⟨⟨_, hres⟩, hupl, by rw [hpsl, hids]⟩

/-- Witness for C2 (amended): the concrete inputs of the counterexample
satisfy the hypotheses (all dispatch succeeds, one new release), so the run
ends in a successful summary with the new ledger only in the local cache. -/
theorem c2_persist_failure_is_swallowed_witness :
    (∃ s, (Orchestrator.run [] (.ok none) (some "1".toList) false
        (.ok [⟨1, "Dup".toList, 10, 10, "ru".toList, 1, none, []⟩,
              ⟨2, "New".toList, 10, 10, "ru".toList, 1, none, []⟩])
        (fun _ => true) ⟨[⟨99, ["ru".toList]⟩]⟩ 1000000).result = .ok s) ∧
    (Orchestrator.run [] (.ok none) (some "1".toList) false
        (.ok [⟨1, "Dup".toList, 10, 10, "ru".toList, 1, none, []⟩,
              ⟨2, "New".toList, 10, 10, "ru".toList, 1, none, []⟩])
        (fun _ => true) ⟨[⟨99, ["ru".toList]⟩]⟩ 1000000).uploads = [] ∧
    (Orchestrator.run [] (.ok none) (some "1".toList) false
        (.ok [⟨1, "Dup".toList, 10, 10, "ru".toList, 1, none, []⟩,
              ⟨2, "New".toList, 10, 10, "ru".toList, 1, none, []⟩])
        (fun _ => true) ⟨[⟨99, ["ru".toList]⟩]⟩ 1000000).persistSavedLocal
      = some (SentHistory.renderFile
          (Orchestrator.run [] (.ok none) (some "1".toList) false
            (.ok [⟨1, "Dup".toList, 10, 10, "ru".toList, 1, none, []⟩,
                  ⟨2, "New".toList, 10, 10, "ru".toList, 1, none, []⟩])
            (fun _ => true) ⟨[⟨99, ["ru".toList]⟩]⟩ 1000000).ids) :=
  c2_persist_failure_is_swallowed [] (.ok none) (some "1".toList)
    [⟨1, "Dup".toList, 10, 10, "ru".toList, 1, none, []⟩,
     ⟨2, "New".toList, 10, 10, "ru".toList, 1, none, []⟩]
    (fun _ => true) ⟨[⟨99, ["ru".toList]⟩]⟩ 1000000
    (by decide) (by decide)

/-- Witness for C9 at a concrete input: ledger `[3, 7]`, slice
`[7, 10, 10, 3]`; the count is `1` (only `10` is new). -/
theorem c9_append_counts_new_ids_and_is_idempotent_witness :
    (∀ z, z ∈ (SentHistory.append [7, 10, 10, 3] [3, 7]).1 ↔
        z ∈ [7, 10, 10, 3] ∨ z ∈ [3, 7]) ∧
    (SentHistory.append [7, 10, 10, 3] [3, 7]).1.length
      = [3, 7].length + (SentHistory.append [7, 10, 10, 3] [3, 7]).2 ∧
    (SentHistory.append [7, 10, 10, 3] [3, 7]).2
      = ([7, 10, 10, 3].toFinset \ [3, 7].toFinset).card ∧
    SentHistory.append [7, 10, 10, 3]
        (SentHistory.append [7, 10, 10, 3] [3, 7]).1
      = ((SentHistory.append [7, 10, 10, 3] [3, 7]).1, 0) :=
  c9_append_counts_new_ids_and_is_idempotent [3, 7] [7, 10, 10, 3]
    (by decide)

end MovieBot
